import Mathlib

/-!
Shallow embedding of the directory subsystem of `rust-fatfs` (`src/dir.rs`).

Strings are modelled as lists of Unicode scalar values (`List Nat`); byte
arrays (such as 11-byte short names) are lists of `Nat` with values below 256;
UTF-16 data is a list of `Nat` with values below 2^16.  Machine-integer
wrap-around (`Wrapping<u8>`, `Wrapping<u16>`) is made explicit with `% 256`
and `% 65536`.  Fallible Rust code returns `Except`.

The crate module `dir_entry.rs` is not part of the sources; the few items that
`dir.rs` imports from it (`DIR_ENTRY_SIZE`, `LFN_PART_LEN`,
`LFN_ENTRY_LAST_FLAG`, the raw-entry data carriers and their liveness
predicates) are modelled from the specification and marked as such below.
-/

set_option maxRecDepth 40000

namespace FatDir

/-- `l.take pos ++ s ++` the rest: overwriting `s.length` elements of `l`
starting at `pos` (the model of a Rust slice assignment
`dst[pos..pos+n].copy_from_slice(s)`). -/
def setSlice (l : List Nat) (pos : Nat) (s : List Nat) : List Nat :=
  l.take pos ++ s ++ l.drop (pos + s.length)

/-- Model of `Vec::resize(n, 0)`: truncate or extend with zeros to length `n`. -/
def resizeZero (l : List Nat) (n : Nat) : List Nat :=
  l.take n ++ List.replicate (n - l.length) 0

@[simp] theorem setSlice_length (l s : List Nat) (pos : Nat)
    (h : pos + s.length ≤ l.length) : (setSlice l pos s).length = l.length := by
  simp only [setSlice, List.length_append, List.length_take, List.length_drop]
  omega

@[simp] theorem resizeZero_length (l : List Nat) (n : Nat) :
    (resizeZero l n).length = n := by
  simp only [resizeZero, List.length_append, List.length_take, List.length_replicate]
  omega

/-- Fuelled worker for `chunks13`; the fuel (any bound on the list length)
only forces structural recursion and never runs out. -/
def chunksGo : Nat → List Nat → List (List Nat)
  | _, [] => []
  | 0, _ :: _ => []
  | fuel + 1, c :: cs => ((c :: cs).take 13 :: chunksGo fuel ((c :: cs).drop 13))

/-- `.chunks(13)` from Rust slices: full 13-element chunks, the final
chunk possibly shorter (and no empty chunk for the empty list). -/
def chunks13 (l : List Nat) : List (List Nat) := chunksGo l.length l

theorem chunksGo_nil (f : Nat) : chunksGo f [] = [] := by cases f <;> rfl

theorem chunksGo_congr : ∀ (f f' : Nat) (l : List Nat),
    l.length ≤ f → l.length ≤ f' → chunksGo f l = chunksGo f' l := by
  intro f
  induction f using Nat.strong_induction_on with
  | _ f ih =>
    intro f' l hf hf'
    cases l with
    | nil => rw [chunksGo_nil, chunksGo_nil]
    | cons c cs =>
      cases f with
      | zero => simp at hf
      | succ f =>
        cases f' with
        | zero => simp at hf'
        | succ f' =>
          simp only [chunksGo]
          have hlen : ((c :: cs).drop 13).length ≤ f := by
            simp only [List.length_drop, List.length_cons]
            simp only [List.length_cons] at hf; omega
          have hlen' : ((c :: cs).drop 13).length ≤ f' := by
            simp only [List.length_drop, List.length_cons]
            simp only [List.length_cons] at hf'; omega
          rw [ih f (by omega) f' _ hlen hlen']

/-- The defining recursion of `chunks13`. -/
theorem chunks13_eq (l : List Nat) :
    chunks13 l = if l = [] then [] else l.take 13 :: chunks13 (l.drop 13) := by
  cases l with
  | nil => rfl
  | cons c cs =>
    simp only [chunks13, List.length_cons, chunksGo, if_neg (List.cons_ne_nil c cs)]
    congr 1
    apply chunksGo_congr
    · simp only [List.length_drop, List.length_cons]; omega
    · exact le_refl _

/-! ## Long-name validation (`validate_long_name`, dir.rs lines 518-536) -/

/-- The character set accepted by `validate_long_name`'s `match`. -/
def allowedLongChar (c : Nat) : Prop :=
  (0x61 ≤ c ∧ c ≤ 0x7A) ∨ (0x41 ≤ c ∧ c ≤ 0x5A) ∨ (0x30 ≤ c ∧ c ≤ 0x39) ∨
  (0x80 ≤ c ∧ c ≤ 0xFFFF) ∨
  c = 0x24 ∨ c = 0x25 ∨ c = 0x27 ∨ c = 0x2D ∨ c = 0x5F ∨ c = 0x40 ∨
  c = 0x7E ∨ c = 0x60 ∨ c = 0x21 ∨ c = 0x28 ∨ c = 0x29 ∨ c = 0x7B ∨
  c = 0x7D ∨ c = 0x2E ∨ c = 0x20 ∨ c = 0x2B ∨ c = 0x2C ∨ c = 0x3B ∨
  c = 0x3D ∨ c = 0x5B ∨ c = 0x5D

instance (c : Nat) : Decidable (allowedLongChar c) := by
  unfold allowedLongChar; infer_instance

/-- Number of bytes in the UTF-8 encoding of the scalar value `c`
(Rust `str::len` counts bytes). -/
def utf8Len (c : Nat) : Nat :=
  if c < 0x80 then 1 else if c < 0x800 then 2 else if c < 0x10000 then 3 else 4

/-- UTF-8 byte length of a whole string. -/
def utf8StrLen (name : List Nat) : Nat := (name.map utf8Len).sum

/-- Error kinds used by `dir.rs` (`std::io::ErrorKind` values that occur). -/
inductive ErrKind where
  | notFound | invalidInput | alreadyExists | otherKind | ioKind
deriving DecidableEq, Repr

/-- An `io::Error`: a kind plus the message passed to `io::Error::new`. -/
structure IoError where
  kind : ErrKind
  msg : String
deriving DecidableEq, Repr

/-- `validate_long_name` (dir.rs lines 518-536).  Note the length guard is
`name.len() > 255`, i.e. a UTF-8 **byte** count. -/
def validate_long_name (name : List Nat) : Except IoError Unit :=
  if name.length = 0 then
    .error ⟨.invalidInput, "filename cannot be empty"⟩
  else if 255 < utf8StrLen name then
    .error ⟨.invalidInput, "filename is too long"⟩
  else if name.all (fun c => decide (allowedLongChar c)) then
    .ok ()
  else
    .error ⟨.invalidInput, "invalid character in filename"⟩

/-! ## LFN checksum (`lfn_checksum`, dir.rs lines 539-545) -/

/-- `lfn_checksum`: fold `chk = (chk << 7) + (chk >> 1) + b` in `Wrapping<u8>`
over the 11 short-name bytes. -/
def lfn_checksum (short_name : List Nat) : Nat :=
  (List.range 11).foldl
    (fun chksum i => ((chksum * 128) % 256 + chksum / 2 + short_name.getD i 0) % 256)
    0

/-! ## UTF-16 encoding (`str::encode_utf16`) -/

/-- UTF-16 code units of one Unicode scalar value. -/
def encodeUtf16Char (c : Nat) : List Nat :=
  if c < 0x10000 then [c]
  else [0xD800 + (c - 0x10000) / 0x400, 0xDC00 + (c - 0x10000) % 0x400]

/-- `name.encode_utf16().collect::<Vec<u16>>()`. -/
def encodeUtf16 (name : List Nat) : List Nat := name.flatMap encodeUtf16Char

/-! ## Short-name generator (`ShortNameGenerator`, dir.rs lines 701-853) -/

/-- The characters kept verbatim by `copy_short_name_part`:
`A-Z a-z 0-9 ! # $ % & ' ( ) - @ ^ _ \x60 \x7b \x7d ~`. -/
def allowedSfnChar (c : Nat) : Prop :=
  (0x41 ≤ c ∧ c ≤ 0x5A) ∨ (0x61 ≤ c ∧ c ≤ 0x7A) ∨ (0x30 ≤ c ∧ c ≤ 0x39) ∨
  c = 0x21 ∨ c = 0x23 ∨ c = 0x24 ∨ c = 0x25 ∨ c = 0x26 ∨ c = 0x27 ∨
  c = 0x28 ∨ c = 0x29 ∨ c = 0x2D ∨ c = 0x40 ∨ c = 0x5E ∨ c = 0x5F ∨
  c = 0x60 ∨ c = 0x7B ∨ c = 0x7D ∨ c = 0x7E

instance (c : Nat) : Decidable (allowedSfnChar c) := by
  unfold allowedSfnChar; infer_instance

/-- `char::to_ascii_uppercase` on the ASCII characters produced inside
`copy_short_name_part`. -/
def toAsciiUpper (c : Nat) : Nat := if 0x61 ≤ c ∧ c ≤ 0x7A then c - 0x20 else c

/-- `char::to_ascii_lowercase` (used by `eq_ignore_ascii_case`). -/
def toAsciiLower (c : Nat) : Nat := if 0x41 ≤ c ∧ c ≤ 0x5A then c + 0x20 else c

/-- `copy_short_name_part(dst, src)` with `room` bytes left in `dst`.
Returns the bytes emitted (their number is the returned `dst_pos`), the
`fits` flag and the `lossy_conv` flag. -/
def copyPart (room : Nat) : List Nat → List Nat × Bool × Bool
  | [] => ([], true, false)
  | c :: cs =>
    if room = 0 then ([], false, false)
    else if c = 0x20 ∨ c = 0x2E then
      -- strip spaces and dots, flagging a lossy conversion
      let r := copyPart room cs
      (r.1, r.2.1, true)
    else
      let fixed := if allowedSfnChar c then c else 0x5F
      let r := copyPart (room - 1) cs
      (toAsciiUpper fixed :: r.1, r.2.1, decide (fixed ≠ c) || r.2.2)

/-- `name.rfind('.')` followed by the two slices `&name[..index]` /
`&name[index+1..]`: split the name at its last dot, if any. -/
def splitLastDot : List Nat → Option (List Nat × List Nat)
  | [] => none
  | c :: cs =>
    match splitLastDot cs with
    | some (b, e) => some (c :: b, e)
    | none => if c = 0x2E then some ([], cs) else none

/-- Space-pad a part to `n` bytes (the destination array starts as `[0x20; 11]`). -/
def padSpaces (n : Nat) (l : List Nat) : List Nat :=
  l ++ List.replicate (n - l.length) 0x20

structure ShortNameGenerator where
  chksum : Nat
  long_prefix_bitmap : Nat
  prefix_chksum_bitmap : Nat
  name_fits : Bool
  lossy_conv : Bool
  exact_match : Bool
  basename_len : Nat
  short_name : List Nat
deriving DecidableEq, Repr

namespace ShortNameGenerator

/-- `ShortNameGenerator::checksum`: BSD-style rotate checksum in
`Wrapping<u16>`; `c as u16` truncates the scalar value. -/
def checksum (name : List Nat) : Nat :=
  name.foldl (fun chksum c => (chksum / 2 + (chksum * 32768) % 65536 + c % 65536) % 65536) 0

/-- `ShortNameGenerator::new`. -/
def new (name : List Nat) : ShortNameGenerator :=
  let r : List Nat × List Nat × Bool × Bool :=
    match splitLastDot name with
    | some (before, after) =>
      let rb := copyPart 8 before
      let re := copyPart 3 after
      (rb.1, re.1, rb.2.1 && re.2.1, rb.2.2 || re.2.2)
    | none =>
      let rb := copyPart 8 name
      (rb.1, [], rb.2.1, rb.2.2)
  { chksum := checksum name
    long_prefix_bitmap := 0
    prefix_chksum_bitmap := 0
    name_fits := r.2.2.1
    lossy_conv := r.2.2.2
    exact_match := false
    basename_len := r.1.length
    short_name := padSpaces 8 r.1 ++ padSpaces 3 r.2.1 }

/-- `char::to_digit(10)`. -/
def toDigit10 (c : Nat) : Option Nat :=
  if 0x30 ≤ c ∧ c ≤ 0x39 then some (c - 0x30) else none

/-- One hexadecimal digit of `char::to_digit(16)`. -/
def hexDigitVal (c : Nat) : Option Nat :=
  if 0x30 ≤ c ∧ c ≤ 0x39 then some (c - 0x30)
  else if 0x61 ≤ c ∧ c ≤ 0x66 then some (c - 0x61 + 10)
  else if 0x41 ≤ c ∧ c ≤ 0x46 then some (c - 0x41 + 10)
  else none

/-- One step of the digit loop of `u16::from_str_radix(s, 16)`: accumulate a
hex digit, failing on a non-digit or on `u16` overflow. -/
def parseStep (acc : Option Nat) (c : Nat) : Option Nat :=
  match acc, hexDigitVal c with
  | some a, some d => if a * 16 + d < 65536 then some (a * 16 + d) else none
  | _, _ => none

/-- The digit loop of `u16::from_str_radix(s, 16)`: a non-empty sequence of
hex digits folded into a value that must fit in a `u16`. -/
def parseHexDigits (digits : List Nat) : Option Nat :=
  if digits.isEmpty then none
  else digits.foldl parseStep (some 0)

/-- `str::from_utf8(bytes).map(|s| u16::from_str_radix(s, 16))` flattened to an
`Option`: any byte outside ASCII decodes (if at all) to a non-hex-digit
character, an optional leading plus sign is accepted, the digit string must be
non-empty, and the value must fit in a `u16`. -/
def parseHexU16 (bytes : List Nat) : Option Nat :=
  if bytes.any (fun b => 0x80 ≤ b) then none
  else match bytes with
    | b :: rest => if b = 0x2B then parseHexDigits rest else parseHexDigits (b :: rest)
    | [] => parseHexDigits []

/-- First section of `add_existing`: check for exact match collision. -/
def addExactCheck (g : ShortNameGenerator) (short_name : List Nat) : ShortNameGenerator :=
  if short_name = g.short_name then { g with exact_match := true } else g

/-- Second section of `add_existing`: check for long prefix form collision
(TEXTFI~1.TXT). -/
def addLongCheck (g : ShortNameGenerator) (short_name : List Nat) : ShortNameGenerator :=
  let p6 := min g.basename_len 6
  let numSuffix6 : Option Nat :=
    if short_name.getD p6 0 = 0x7E then toDigit10 (short_name.getD (p6 + 1) 0) else none
  let extMatches := short_name.drop 8 = g.short_name.drop 8
  if short_name.take p6 = g.short_name.take p6 ∧ numSuffix6.isSome ∧ extMatches then
    { g with long_prefix_bitmap := g.long_prefix_bitmap ||| (1 <<< numSuffix6.getD 0) }
  else g

/-- Third section of `add_existing`: check for short prefix + checksum form
collision (TE021F~1.TXT). -/
def addChksumCheck (g : ShortNameGenerator) (short_name : List Nat) : ShortNameGenerator :=
  let p2 := min g.basename_len 2
  let numSuffix2 : Option Nat :=
    if short_name.getD (p2 + 4) 0 = 0x7E then toDigit10 (short_name.getD (p2 + 4 + 1) 0) else none
  let extMatches := short_name.drop 8 = g.short_name.drop 8
  if short_name.take p2 = g.short_name.take p2 ∧ numSuffix2.isSome ∧ extMatches then
    if parseHexU16 ((short_name.drop p2).take 4) = some g.chksum then
      { g with prefix_chksum_bitmap := g.prefix_chksum_bitmap ||| (1 <<< numSuffix2.getD 0) }
    else g
  else g

/-- `ShortNameGenerator::add_existing` (dir.rs lines 771-795): the three
checks in source order (the earlier checks never change the fields the later
ones read, so sequencing the sections is the loop body verbatim). -/
def add_existing (g : ShortNameGenerator) (short_name : List Nat) : ShortNameGenerator :=
  addChksumCheck (addLongCheck (addExactCheck g short_name) short_name) short_name

/-- `char::from_digit(x, 16).unwrap().to_ascii_uppercase() as u8`. -/
def hexDigitChar (x : Nat) : Nat := if x < 10 then 0x30 + x else 0x41 + (x - 10)

/-- `ShortNameGenerator::u16_to_u8_array`. -/
def u16_to_u8_array (x : Nat) : List Nat :=
  [hexDigitChar ((x / 4096) % 16), hexDigitChar ((x / 256) % 16),
   hexDigitChar ((x / 16) % 16), hexDigitChar (x % 16)]

/-- `ShortNameGenerator::build_prefixed_name` (dir.rs lines 828-844). -/
def build_prefixed_name (g : ShortNameGenerator) (num : Nat) (with_chksum : Bool) :
    List Nat :=
  let buf := List.replicate 11 0x20
  let r : List Nat × Nat :=
    if with_chksum then
      let p := min g.basename_len 2
      (setSlice (setSlice buf 0 (g.short_name.take p)) p (u16_to_u8_array g.chksum), p + 4)
    else
      let p := min g.basename_len 6
      (setSlice buf 0 (g.short_name.take p), p)
  let buf := (r.1.set r.2 0x7E).set (r.2 + 1) (0x30 + num)
  setSlice buf 8 (g.short_name.drop 8)

/-- `ShortNameGenerator::generate` (dir.rs lines 806-826). -/
def generate (g : ShortNameGenerator) : Except IoError (List Nat) :=
  if ¬g.lossy_conv ∧ g.name_fits ∧ ¬g.exact_match then
    -- no lossy conversion, name fits and no collision: return as is
    .ok g.short_name
  else match (List.range' 1 4).find? (fun i => g.long_prefix_bitmap &&& (1 <<< i) == 0) with
  | some i => .ok (g.build_prefixed_name i false)
  | none =>
    match (List.range' 1 9).find? (fun i => g.prefix_chksum_bitmap &&& (1 <<< i) == 0) with
    | some i => .ok (g.build_prefixed_name i true)
    | none => .error ⟨.alreadyExists, "short name already exists"⟩

end ShortNameGenerator

/-! ## LFN slots

Modelled from the spec: `dir_entry.rs` is not among the sources, so the LFN
slot carrier (`DirLfnEntryData`: order byte, checksum byte, 13 UTF-16 name
units) and the constants `LFN_PART_LEN = 13` (13 code units per slot) and
`LFN_ENTRY_LAST_FLAG = 0x40` are taken from spec sections 3 and 6;
`copy_name_from_slice` / `copy_name_to_slice` copy the 13 units verbatim. -/
structure DirLfnEntryData where
  order : Nat
  checksum : Nat
  nameParts : List Nat
deriving DecidableEq, Repr

def LFN_PART_LEN : Nat := 13
def LFN_ENTRY_LAST_FLAG : Nat := 0x40

/-- Modelled from the spec: an LFN slot is free when its first byte (the
order byte) is 0xE5. -/
def DirLfnEntryData.isFreeLfn (d : DirLfnEntryData) : Bool := d.order == 0xE5

/-! ## LFN encoder (`LfnEntriesGenerator`, dir.rs lines 628-699) -/

/-- The 13 name units of one generated LFN slot: the chunk, a 0x0000
terminator when the chunk is short, then 0xFFFF fill (the source fills
`[0xFFFF; 13]`, copies the chunk, and sets position `len` to 0 when
`len < 13`; `List.set` out of range is a no-op exactly like that guard). -/
def lfnPart (c : List Nat) : List Nat :=
  (c ++ List.replicate (LFN_PART_LEN - c.length) 0xFFFF).set c.length 0

/-- Slots for the reversed chunk list.  The source iterates `chunks.rev()`
with a running `index`, emitting `order = num - index` and setting the 0x40
flag only on the first emitted slot; here the remaining-list length plays the
role of `num - index` (for the head of the reversed list, `ps.length + 1 =
num - 0`, and it decreases by one per step exactly as `num - index` does). -/
def lfnSlotsRev (checksum : Nat) : Bool → List (List Nat) → List DirLfnEntryData
  | _, [] => []
  | first, p :: ps =>
    { order := (ps.length + 1) ||| (if first then LFN_ENTRY_LAST_FLAG else 0)
      checksum := checksum
      nameParts := lfnPart p } :: lfnSlotsRev checksum false ps

/-- `LfnEntriesGenerator::new(name_utf16, checksum)` run to completion:
the emitted slot sequence, first-to-last. -/
def lfnEntries (name_utf16 : List Nat) (checksum : Nat) : List DirLfnEntryData :=
  lfnSlotsRev checksum true (chunks13 name_utf16).reverse

/-! ## LFN decoder (`LongNameBuilder`, dir.rs lines 547-626) -/

structure LongNameBuilder where
  buf : List Nat
  chksum : Nat
  index : Nat
deriving DecidableEq, Repr

namespace LongNameBuilder

def new : LongNameBuilder := ⟨[], 0, 0⟩

/-- `LongNameBuilder::clear` (resets the buffer and index, not the checksum). -/
def clear (b : LongNameBuilder) : LongNameBuilder := { b with buf := [], index := 0 }

/-- `LongNameBuilder::truncate`: drop the maximal run of trailing 0x0000 /
0xFFFF units. -/
def truncateTrailing (b : LongNameBuilder) : LongNameBuilder :=
  { b with buf := ((b.buf.reverse.dropWhile (fun x => x == 0xFFFF || x == 0)).reverse) }

/-- `LongNameBuilder::to_vec`. -/
def to_vec (b : LongNameBuilder) : List Nat :=
  if b.index = 1 then b.truncateTrailing.buf else []

/-- `LongNameBuilder::process` (dir.rs lines 591-617). -/
def process (b : LongNameBuilder) (data : DirLfnEntryData) : LongNameBuilder :=
  let index := data.order &&& 0x1F
  if index = 0 then
    -- corrupted entry
    b.clear
  else if data.order &&& LFN_ENTRY_LAST_FLAG ≠ 0 then
    -- last entry is actually first entry in stream
    let b := { b with index := index, chksum := data.checksum
                      buf := resizeZero b.buf (index * LFN_PART_LEN) }
    { b with buf := setSlice b.buf (LFN_PART_LEN * (index - 1)) data.nameParts }
  else if b.index = 0 ∨ index ≠ b.index - 1 ∨ data.checksum ≠ b.chksum then
    -- corrupted entry
    b.clear
  else
    let b := { b with index := b.index - 1 }
    { b with buf := setSlice b.buf (LFN_PART_LEN * (index - 1)) data.nameParts }

/-- `LongNameBuilder::validate_chksum`. -/
def validate_chksum (b : LongNameBuilder) (short_name : List Nat) : LongNameBuilder :=
  if lfn_checksum short_name ≠ b.chksum then b.clear else b

end LongNameBuilder

/-- The write-then-read pipeline of claim C1: feed the slots emitted by
`LfnEntriesGenerator` over the UTF-16 units (with the checksum of `sfn`),
in emission order, into a fresh `LongNameBuilder`, then run
`validate_chksum(sfn)` and `to_vec`. -/
def lfnRoundTrip (utf16 : List Nat) (sfn : List Nat) : List Nat :=
  (((lfnEntries utf16 (lfn_checksum sfn)).foldl LongNameBuilder.process
      LongNameBuilder.new).validate_chksum sfn).to_vec

/-! ## Raw directory slots

Modelled from the spec (`dir_entry.rs` is not among the sources): an SFN slot
carries the 11 name bytes, the attribute byte, the first cluster and the size
(timestamps are externally sourced and play no role in the claims); a slot's
liveness is decided by its byte 0 (0x00 end-of-directory, 0xE5 free);
attribute 0x08 is VOLUME_ID and 0x10 is DIRECTORY; `set_free` stores 0xE5
into byte 0 and leaves the remaining 31 bytes intact. -/
structure DirFileEntryData where
  name : List Nat
  attrs : Nat
  firstCluster : Nat
  size : Nat
deriving DecidableEq, Repr

def DIR_ENTRY_SIZE : Nat := 32

inductive DirEntryData where
  | file (d : DirFileEntryData)
  | lfn (d : DirLfnEntryData)
deriving DecidableEq, Repr

namespace DirEntryData

/-- Byte 0 of the serialized slot: the first name byte of an SFN slot, the
order byte of an LFN slot. -/
def b0 : DirEntryData → Nat
  | .file d => d.name.headD 0
  | .lfn d => d.order

/-- Modelled from the spec: byte 0 = 0x00 means end-of-directory. -/
def isEndSlot (s : DirEntryData) : Bool := s.b0 == 0

/-- Modelled from the spec: byte 0 = 0xE5 means a free slot. -/
def isFreeSlot (s : DirEntryData) : Bool := s.b0 == 0xE5

/-- Modelled from the spec: `set_free` stores 0xE5 into byte 0 and leaves
the rest of the 32-byte record unchanged. -/
def setFree : DirEntryData → DirEntryData
  | .file d => .file { d with name := d.name.set 0 0xE5 }
  | .lfn d => .lfn { d with order := 0xE5 }

/-- All slot bytes other than byte 0 (used to state that `set_free` keeps
the remaining 31 bytes intact). -/
def restBytes : DirEntryData → (List Nat × Nat × Nat × Nat) ⊕ (Nat × List Nat)
  | .file d => .inl (d.name.drop 1, d.attrs, d.firstCluster, d.size)
  | .lfn d => .inr (d.checksum, d.nameParts)

end DirEntryData

/-- Modelled from the spec: a used SFN slot is a volume-ID entry when the
VOLUME_ID attribute bit (0x08) is set. -/
def DirFileEntryData.isVolume (d : DirFileEntryData) : Bool := d.attrs &&& 0x08 != 0

def DirFileEntryData.isEndF (d : DirFileEntryData) : Bool := d.name.headD 0 == 0
def DirFileEntryData.isFreeF (d : DirFileEntryData) : Bool := d.name.headD 0 == 0xE5

/-- The logical directory entry built by the iterator or by `write_entry`
(`entry_pos`, the device-absolute SFN position, is omitted: it depends only on
the external stream mapping and no claim mentions it). -/
structure DirEntry where
  data : DirFileEntryData
  lfn : List Nat
  offsetRange : Nat × Nat
deriving DecidableEq, Repr

def DirEntry.isDir (e : DirEntry) : Bool := e.data.attrs &&& 0x10 != 0

/-- Modelled from the spec: `DirEntry::first_cluster` is `None` when the
stored first-cluster field is 0. -/
def DirEntry.firstClusterOpt (e : DirEntry) : Option Nat :=
  if e.data.firstCluster = 0 then none else some e.data.firstCluster

def rtrimSpaces (l : List Nat) : List Nat :=
  (l.reverse.dropWhile (fun b => b == 0x20)).reverse

/-- Modelled from the spec: the display form of an 11-byte short name,
`NAME.EXT` with the space padding stripped and the dot omitted for an empty
extension. -/
def shortNameStr (name : List Nat) : List Nat :=
  let base := rtrimSpaces (name.take 8)
  let ext := rtrimSpaces (name.drop 8)
  if ext.isEmpty then base else base ++ 0x2E :: ext

/-- Modelled from the spec: UTF-16 decoding used when a long name is shown,
pairing surrogates and replacing unpaired ones. -/
def utf16ToScalars : List Nat → List Nat
  | [] => []
  | [u] =>
    if 0xD800 ≤ u ∧ u ≤ 0xDFFF then [0xFFFD] else [u]
  | u :: v :: vs =>
    if 0xD800 ≤ u ∧ u ≤ 0xDBFF then
      if 0xDC00 ≤ v ∧ v ≤ 0xDFFF then
        (0x10000 + (u - 0xD800) * 0x400 + (v - 0xDC00)) :: utf16ToScalars vs
      else 0xFFFD :: utf16ToScalars (v :: vs)
    else if 0xDC00 ≤ u ∧ u ≤ 0xDFFF then 0xFFFD :: utf16ToScalars (v :: vs)
    else u :: utf16ToScalars (v :: vs)

/-- Modelled from the spec: `DirEntry::file_name` is the decoded long name
when one was attached, the short-name display form otherwise. -/
def DirEntry.fileName (e : DirEntry) : List Nat :=
  if e.lfn.isEmpty then shortNameStr e.data.name else utf16ToScalars e.lfn

/-- `str::eq_ignore_ascii_case` on scalar-value lists. -/
def eqIgnoreAsciiCase : List Nat → List Nat → Bool
  | [], [] => true
  | a :: as1, b :: bs => (toAsciiLower a == toAsciiLower b) && eqIgnoreAsciiCase as1 bs
  | _, _ => false

/-! ## Entry iterator (`DirIter::read_dir_entry`, dir.rs lines 433-516)

`collectGo` runs the `read_dir_entry` loop over the remaining raw slots,
collecting every yielded logical entry in order; the trailing `Option IoError`
records whether the iteration ended at the 0x00 sentinel (`none`) or with a
deserialization error after the collected prefix (`some`), which preserves
the laziness of `DirIter` for the callers below. -/

/-- The error produced when `DirEntryData::deserialize` runs out of stream. -/
def eofError : IoError := ⟨.ioKind, "failed to fill whole buffer"⟩

def collectGo : List DirEntryData → Nat → LongNameBuilder → Nat →
    List DirEntry × Option IoError
  | [], _, _, _ => ([], some eofError)
  | s :: rest, offset, lfn_buf, begin_offset =>
    let offset1 := offset + DIR_ENTRY_SIZE
    match s with
    | .file data =>
      if data.isEndF then ([], none)
      else if data.isFreeF || data.isVolume then
        collectGo rest offset1 lfn_buf.clear offset1
      else
        let b := lfn_buf.validate_chksum data.name
        let e : DirEntry := { data := data, lfn := b.to_vec, offsetRange := (begin_offset, offset1) }
        let r := collectGo rest offset1 LongNameBuilder.new offset1
        (e :: r.1, r.2)
    | .lfn data =>
      if data.isFreeLfn then collectGo rest offset1 lfn_buf.clear offset1
      else collectGo rest offset1 (lfn_buf.process data) begin_offset

/-- All logical entries of a directory, plus the error that `iter()` would
report after them (if the stream ends without the 0x00 sentinel). -/
def collectEntries (slots : List DirEntryData) : List DirEntry × Option IoError :=
  collectGo slots 0 LongNameBuilder.new 0

/-! ## `Dir::find_entry` (dir.rs lines 112-130) -/

def nameMatches (e : DirEntry) (name : List Nat) : Bool :=
  eqIgnoreAsciiCase e.fileName name || eqIgnoreAsciiCase (shortNameStr e.data.name) name

def findEntryGo (name : List Nat) (is_dir : Option Bool) :
    List DirEntry → Option IoError → Option ShortNameGenerator →
    Except IoError DirEntry × Option ShortNameGenerator
  | [], none, g => (.error ⟨.notFound, "file not found"⟩, g)
  | [], some err, g => (.error err, g)
  | e :: es, terr, g =>
    if nameMatches e name then
      if is_dir.isSome && some e.isDir != is_dir then
        (.error ⟨.otherKind, if e.isDir then "Is a directory" else "Not a directory"⟩, g)
      else (.ok e, g)
    else
      findEntryGo name is_dir es terr (g.map (fun g => g.add_existing e.data.name))

def find_entry (slots : List DirEntryData) (name : List Nat) (is_dir : Option Bool)
    (g : Option ShortNameGenerator) :
    Except IoError DirEntry × Option ShortNameGenerator :=
  let r := collectEntries slots
  findEntryGo name is_dir r.1 r.2 g

/-! ## `Dir::is_empty` (dir.rs lines 224-235) -/

def isEmptyGo : List DirEntry → Option IoError → Except IoError Bool
  | [], none => .ok true
  | [], some err => .error err
  | e :: es, terr =>
    -- ignore special entries "." and ".."
    if e.fileName ≠ [0x2E] ∧ e.fileName ≠ [0x2E, 0x2E] then .ok false
    else isEmptyGo es terr

def is_empty (slots : List DirEntryData) : Except IoError Bool :=
  let r := collectEntries slots
  isEmptyGo r.1 r.2

/-! ## Freeing the raw slots of one logical entry

The loop shared by `Dir::remove` and `Dir::rename_internal`: starting at
`offset_range.0`, deserialize, `set_free` and re-serialize each of
`(offset_range.1 - offset_range.0) / 32` slots in place (a deserialization
past the end of the stream fails, leaving the slots already rewritten). -/
def freeRangeGo : List DirEntryData → Nat → Nat → Except IoError Unit × List DirEntryData
  | slots, _, 0 => (.ok (), slots)
  | slots, i, n + 1 =>
    if h : i < slots.length then
      freeRangeGo (slots.set i (slots.get ⟨i, h⟩).setFree) (i + 1) n
    else (.error eofError, slots)

/-! ## `Dir::remove` at the leaf (dir.rs lines 242-271)

The recursive path descent reduces `remove(path)` to this final-component
case; `dirOf` maps a first-cluster number to the slot contents of the
directory stored there (the cluster-chain file engine is an external
collaborator), and the returned `List Nat` records the clusters passed to the
external `free_cluster_chain`. -/
def Dir.remove (dirOf : Nat → List DirEntryData) (slots : List DirEntryData)
    (name : List Nat) : Except IoError Unit × List DirEntryData × List Nat :=
  match (find_entry slots name none none).1 with
  | .error err => (.error err, slots, [])
  | .ok e =>
    -- in case of directory check if it is empty
    match (if e.isDir then is_empty (dirOf e.data.firstCluster) else .ok true) with
    | .error err => (.error err, slots, [])
    | .ok emp =>
      if e.isDir && !emp then
        (.error ⟨.notFound, "removing non-empty directory is denied"⟩, slots, [])
      else
        -- free data
        let freed := match e.firstClusterOpt with | some n => [n] | none => []
        -- free long and short name entries
        let r := freeRangeGo slots (e.offsetRange.1 / DIR_ENTRY_SIZE)
          ((e.offsetRange.2 - e.offsetRange.1) / DIR_ENTRY_SIZE)
        (r.1, r.2, freed)

/-! ## Free-slot finder (`Dir::find_free_entries`, dir.rs lines 325-356) -/

def findFreeGo (num_entries : Nat) :
    List DirEntryData → Nat → Nat → Nat → Except IoError Nat
  | [], _, _, _ => .error eofError
  | s :: rest, first_free, num_free, i =>
    if s.isEndSlot then
      -- first unused entry - all remaining space can be used
      .ok (DIR_ENTRY_SIZE * (if num_free = 0 then i else first_free))
    else if s.isFreeSlot then
      -- free entry - calculate number of free entries in a row
      let ff := if num_free = 0 then i else first_free
      if num_free + 1 = num_entries then .ok (DIR_ENTRY_SIZE * ff)
      else findFreeGo num_entries rest ff (num_free + 1) (i + 1)
    else
      -- used entry - start counting from 0
      findFreeGo num_entries rest first_free 0 (i + 1)

/-- `find_free_entries(num_entries)`: the byte offset at which the returned
stream is positioned. -/
def find_free_entries (slots : List DirEntryData) (num_entries : Nat) :
    Except IoError Nat :=
  findFreeGo num_entries slots 0 0 0

/-! ## `Dir::write_entry` (dir.rs lines 359-412) -/

/-- Sequential slot writes starting at slot index `i`.  Modelled from the
spec: writes past the current end grow the directory stream (cluster
allocation is external); `find_free_entries` only yields offsets at most the
current length, so the growth here is a plain append. -/
def writeSlotsAt : List DirEntryData → Nat → List DirEntryData → List DirEntryData
  | slots, _, [] => slots
  | slots, i, s :: ss =>
    writeSlotsAt (if i < slots.length then slots.set i s else slots ++ [s]) (i + 1) ss

/-- `Dir::create_lfn_entries`: returns the start byte offset and the slots
after the LFN run has been serialized. -/
def create_lfn_entries (slots : List DirEntryData) (name : List Nat)
    (short_name : List Nat) : Except IoError (Nat × List DirEntryData) :=
  let lfn_chsum := lfn_checksum short_name
  let lfn_utf16 := encodeUtf16 name
  let lfn_iter := lfnEntries lfn_utf16 lfn_chsum
  let num_entries := lfn_iter.length + 1
  match find_free_entries slots num_entries with
  | .error e => .error e
  | .ok start_pos =>
    .ok (start_pos, writeSlotsAt slots (start_pos / DIR_ENTRY_SIZE) (lfn_iter.map .lfn))

/-- `Dir::create_sfn_entry` (timestamp resets are externally clocked and not
part of the model). -/
def create_sfn_entry (short_name : List Nat) (attrs : Nat)
    (first_cluster : Option Nat) : DirFileEntryData :=
  { name := short_name, attrs := attrs, firstCluster := first_cluster.getD 0, size := 0 }

def write_entry (slots : List DirEntryData) (name : List Nat)
    (raw_entry : DirFileEntryData) : Except IoError DirEntry × List DirEntryData :=
  -- check if name doesn't contain unsupported characters
  match validate_long_name name with
  | .error e => (.error e, slots)
  | .ok _ =>
    match create_lfn_entries slots name raw_entry.name with
    | .error e => (.error e, slots)
    | .ok (start_pos, slots1) =>
      let k := (lfnEntries (encodeUtf16 name) (lfn_checksum raw_entry.name)).length
      -- write short name entry after the LFN run
      let slots2 := writeSlotsAt slots1 (start_pos / DIR_ENTRY_SIZE + k) [.file raw_entry]
      let end_pos := start_pos + DIR_ENTRY_SIZE * (k + 1)
      (.ok { data := raw_entry, lfn := [], offsetRange := (start_pos, end_pos) }, slots2)

/-! ## `Dir::rename_internal` (dir.rs lines 297-323) -/

/-- Modelled from the spec: `DirFileEntryData::renamed` is the same payload
with the new short name. -/
def DirFileEntryData.renamed (d : DirFileEntryData) (short_name : List Nat) :
    DirFileEntryData := { d with name := short_name }

/-- `rename_internal(src_name, dst_dir, dst_name)` on the source and
destination slot lists; returns the result together with both updated lists. -/
def Dir.rename_internal (srcSlots dstSlots : List DirEntryData)
    (src_name dst_name : List Nat) :
    Except IoError Unit × List DirEntryData × List DirEntryData :=
  -- find existing file
  match (find_entry srcSlots src_name none none).1 with
  | .error err => (.error err, srcSlots, dstSlots)
  | .ok e =>
    -- free long and short name entries
    let r := freeRangeGo srcSlots (e.offsetRange.1 / DIR_ENTRY_SIZE)
      ((e.offsetRange.2 - e.offsetRange.1) / DIR_ENTRY_SIZE)
    match r.1 with
    | .error err => (.error err, r.2, dstSlots)
    | .ok _ =>
      -- check if destination filename is unused
      let g := ShortNameGenerator.new dst_name
      let fr := find_entry dstSlots dst_name none (some g)
      match fr.1 with
      | .ok _ =>
        (.error ⟨.alreadyExists, "destination file already exists"⟩, r.2, dstSlots)
      | .error _ =>
        -- save new directory entry
        match (fr.2.getD g).generate with
        | .error err => (.error err, r.2, dstSlots)
        | .ok short_name =>
          let w := write_entry dstSlots dst_name (e.data.renamed short_name)
          match w.1 with
          | .error err => (.error err, r.2, w.2)
          | .ok _ => (.ok (), r.2, w.2)

/-! ## `Dir::create_file` / `Dir::create_dir` at the leaf
(dir.rs lines 163-222; the path descent reduces both to the final
component) -/

def Dir.create_file (slots : List DirEntryData) (name : List Nat) :
    Except IoError DirEntry × List DirEntryData :=
  let g := ShortNameGenerator.new name
  let fr := find_entry slots name (some false) (some g)
  match fr.1 with
  | .error err =>
    if err.kind = .notFound then
      -- file does not exist - create it
      match (fr.2.getD g).generate with
      | .error e => (.error e, slots)
      | .ok short_name => write_entry slots name (create_sfn_entry short_name 0 none)
    else (.error err, slots)
  | .ok e => (.ok e, slots)

/-- `generate().unwrap()` (only invoked where the source relies on success). -/
def generateUnwrap (g : ShortNameGenerator) : List Nat :=
  match g.generate with | .ok s => s | .error _ => []

/-- `Dir::create_dir` at the leaf.  `cluster` is what the external
`alloc_cluster` returns, `freshSlots` the initial slot content of that
cluster, and `parentFirstCluster` is `self.stream.first_cluster()`.  Returns
the result, the parent slots, the new directory's slots, and whether
`alloc_cluster` was called. -/
def Dir.create_dir (slots : List DirEntryData) (name : List Nat) (cluster : Nat)
    (freshSlots : List DirEntryData) (parentFirstCluster : Option Nat) :
    Except IoError DirEntry × List DirEntryData × List DirEntryData × Bool :=
  let g := ShortNameGenerator.new name
  let fr := find_entry slots name (some true) (some g)
  match fr.1 with
  | .error err =>
    if err.kind = .notFound then
      -- alloc cluster for directory data, then create entry in parent
      match (fr.2.getD g).generate with
      | .error e => (.error e, slots, freshSlots, true)
      | .ok short_name =>
        let w := write_entry slots name (create_sfn_entry short_name 0x10 (some cluster))
        match w.1 with
        | .error e => (.error e, w.2, freshSlots, true)
        | .ok entry =>
          -- create special entries "." and ".."
          let dot_sfn := generateUnwrap (ShortNameGenerator.new [0x2E])
          let w1 := write_entry freshSlots [0x2E]
            (create_sfn_entry dot_sfn 0x10 entry.firstClusterOpt)
          match w1.1 with
          | .error e => (.error e, w.2, w1.2, true)
          | .ok _ =>
            let dotdot_sfn := generateUnwrap (ShortNameGenerator.new [0x2E, 0x2E])
            let w2 := write_entry w1.2 [0x2E, 0x2E]
              (create_sfn_entry dotdot_sfn 0x10 parentFirstCluster)
            match w2.1 with
            | .error e => (.error e, w.2, w2.2, true)
            | .ok _ => (.ok entry, w.2, w2.2, true)
    else (.error err, slots, freshSlots, false)
  | .ok e => (.ok e, slots, freshSlots, false)

/-! ## Generic bit-twiddling helpers -/

theorem and_shift_eq_zero_iff (a i : Nat) :
    a &&& (1 <<< i) = 0 ↔ a.testBit i = false := by
  rw [Nat.shiftLeft_eq, Nat.one_mul, Nat.and_two_pow]
  constructor
  · intro h
    rcases Nat.mul_eq_zero.mp h with h1 | h2
    · cases hb : a.testBit i
      · rfl
      · rw [hb] at h1; cases h1
    · exact absurd h2 (Nat.pos_iff_ne_zero.mp (Nat.pos_pow_of_pos i (by norm_num)))
  · intro h; rw [h]; simp

theorem bit_set_after_or (a i : Nat) : (a ||| (1 <<< i)) &&& (1 <<< i) ≠ 0 := by
  intro h
  rw [and_shift_eq_zero_iff] at h
  have h2 : (1 <<< i : Nat) = 2 ^ i := by rw [Nat.shiftLeft_eq, Nat.one_mul]
  rw [h2] at h
  simp [Nat.testBit_or, Nat.testBit_two_pow_self] at h

theorem bit_clear_of_or (a b i : Nat) (h : (a ||| b) &&& (1 <<< i) = 0) :
    a &&& (1 <<< i) = 0 := by
  rw [and_shift_eq_zero_iff] at h ⊢
  simp only [Nat.testBit_or, Bool.or_eq_false_iff] at h
  exact h.1

theorem bit_persist (a b i : Nat) (h : a &&& (1 <<< i) ≠ 0) :
    (a ||| b) &&& (1 <<< i) ≠ 0 :=
  fun hc => h (bit_clear_of_or a b i hc)

/-! ## Concrete directory fixtures used by witnesses and counterexamples -/

def exSlotA : DirEntryData :=
  .file { name := 0x41 :: List.replicate 10 0x20, attrs := 0, firstCluster := 0, size := 0 }
def exSlotB : DirEntryData :=
  .file { name := 0x42 :: List.replicate 10 0x20, attrs := 0, firstCluster := 0, size := 0 }
def exSlotD : DirEntryData :=
  .file { name := 0x44 :: List.replicate 10 0x20, attrs := 0x10, firstCluster := 5, size := 0 }
def exEnd : DirEntryData :=
  .file { name := List.replicate 11 0, attrs := 0, firstCluster := 0, size := 0 }
def exDot : DirEntryData :=
  .file { name := 0x2E :: List.replicate 10 0x20, attrs := 0x10, firstCluster := 5, size := 0 }
def exDotdot : DirEntryData :=
  .file { name := 0x2E :: 0x2E :: List.replicate 9 0x20, attrs := 0x10, firstCluster := 0, size := 0 }

/-! ## Claim C9: the LFN checksum is the rotate-right-and-add fold -/

/-- The specification's `rotate_right_8`: rotate an 8-bit value right by one
bit position. -/
def rotateRight8 (x : Nat) : Nat := (x % 2) * 128 + x / 2

/-- The checksum as the specification words it: fold
`chk := rotate_right_8(chk) + s[i] (mod 256)` over `i = 0..10` from 0. -/
def lfn_checksum_spec (s : List Nat) : Nat :=
  (List.range 11).foldl (fun chksum i => (rotateRight8 chksum + s.getD i 0) % 256) 0

theorem foldl_mod256_lt (l : List Nat) (f : Nat → Nat → Nat) :
    ∀ init, init < 256 → (∀ a b, f a b < 256) → l.foldl f init < 256 := by
  induction l with
  | nil => intro init h _; exact h
  | cons x xs ih => intro init _ hf; exact ih (f init x) (hf init x) hf

/-- C9: for every 11-byte array `s`, `lfn_checksum s` equals the fold
`chk := rotate_right_8(chk) + s[i] (mod 256)` over `i = 0..10` starting from
0, and the arithmetic stays below 256 (wrapping mod 256, no overflow). -/
theorem claim_C9_lfn_checksum (s : List Nat) (_hlen : s.length = 11) :
    lfn_checksum s = lfn_checksum_spec s ∧ lfn_checksum s < 256 := by
  constructor
  · unfold lfn_checksum lfn_checksum_spec
    congr 1
    funext chksum i
    have : chksum * 128 % 256 = chksum % 2 * 128 := by omega
    rw [this]
    unfold rotateRight8
    omega
  · exact foldl_mod256_lt _ _ 0 (by norm_num)
      (fun a b => Nat.mod_lt _ (by norm_num))

/-- Witness for C9 at the concrete array `[0xFF; 11]` from the spec's
scenario table: the checksum is defined and wraps mod 256. -/
theorem claim_C9_witness :
    (List.replicate 11 0xFF).length = 11 ∧
    lfn_checksum (List.replicate 11 0xFF) = lfn_checksum_spec (List.replicate 11 0xFF) ∧
    lfn_checksum (List.replicate 11 0xFF) < 256 :=
  ⟨by decide, claim_C9_lfn_checksum (List.replicate 11 0xFF) (by decide)⟩

/-! ## Claim C3: short names generated for "." and ".." -/

/-- C3: the claim says `ShortNameGenerator::new(".").generate()` returns
`".          "` and `ShortNameGenerator::new("..").generate()` returns
`"..         "` with Phase B bypassed.  The code instead strips the dots in
`copy_short_name_part`, so "." yields eleven spaces (Phase A emits nothing)
and ".." yields the Phase-B suffixed form `"~1         "` (the dot stripping
marks the conversion lossy, so Phase B is *not* bypassed). -/
theorem claim_C3_dot_names :
    (ShortNameGenerator.new [0x2E]).generate = .ok (List.replicate 11 0x20) ∧
    (ShortNameGenerator.new [0x2E, 0x2E]).generate =
      .ok (0x7E :: 0x31 :: List.replicate 9 0x20) ∧
    (ShortNameGenerator.new [0x2E]).generate ≠ .ok (0x2E :: List.replicate 10 0x20) ∧
    (ShortNameGenerator.new [0x2E, 0x2E]).generate ≠
      .ok (0x2E :: 0x2E :: List.replicate 9 0x20) ∧
    (ShortNameGenerator.new [0x2E, 0x2E]).lossy_conv = true := by
  refine ⟨rfl, rfl, ?_, ?_, rfl⟩
  · intro h
    exact absurd (Except.ok.inj h) (by decide)
  · intro h
    exact absurd (Except.ok.inj h) (by decide)

/-! ## Claim C5: what long-name validation accepts -/

/-- C5 counterexample: 128 copies of U+00E9 form a name of 128 code points
(all in the allowed set, so the claim says it is accepted), but its UTF-8
length is 256 bytes and `validate_long_name` checks `name.len() > 255` in
bytes, so the code rejects it. -/
theorem claim_C5_counterexample :
    validate_long_name (List.replicate 128 0xE9) =
      .error ⟨.invalidInput, "filename is too long"⟩ ∧
    (List.replicate 128 0xE9 : List Nat) ≠ [] ∧
    (List.replicate 128 0xE9).length ≤ 255 ∧
    ∀ c ∈ List.replicate 128 0xE9, allowedLongChar c :=
  ⟨rfl, by decide, by decide, by decide⟩

/-- C5 (amended): `validate_long_name` rejects with `InvalidInput` exactly
the names that are empty, are longer than 255 **UTF-8 bytes** (not code
points), or contain a character outside the allowed set; every other name is
accepted. -/
theorem claim_C5_validate_spec (name : List Nat) :
    (validate_long_name name = .ok () ↔
      name ≠ [] ∧ utf8StrLen name ≤ 255 ∧ ∀ c ∈ name, allowedLongChar c) ∧
    (∀ e, validate_long_name name = .error e → e.kind = .invalidInput) := by
  constructor
  · unfold validate_long_name
    split_ifs with h1 h2 h3
    · simp only [List.length_eq_zero] at h1
      subst h1
      constructor
      · intro h; cases h
      · intro ⟨h, _⟩; exact absurd rfl h
    · constructor
      · intro h; cases h
      · intro ⟨_, h, _⟩; omega
    · simp only [List.all_eq_true, decide_eq_true_eq] at h3
      constructor
      · intro _
        exact ⟨fun hn => by subst hn; simp at h1, by omega, h3⟩
      · intro _; rfl
    · simp only [List.all_eq_true, decide_eq_true_eq] at h3
      constructor
      · intro h; cases h
      · intro ⟨_, _, hall⟩; exact absurd hall h3
  · intro e he
    unfold validate_long_name at he
    split_ifs at he <;>
      first
        | exact Except.noConfusion he
        | (injection he with h2; rw [← h2])

/-- Witness for C5's amended theorem at a concrete accepted name. -/
theorem claim_C5_witness : validate_long_name [0x61] = .ok () :=
  (claim_C5_validate_spec [0x61]).1.mpr (by decide)

/-! ## Claim C10: kind-mismatch errors from create_file / create_dir -/

/-- C10: when `find_entry` resolves the final component to an entry of the
wrong kind, `create_file` fails with the Other-kind error "Is a directory"
and leaves the parent slots untouched; symmetrically `create_dir` fails with
"Not a directory", writes nothing to either directory, and never calls the
cluster allocator. -/
theorem claim_C10_create_kind_mismatch
    (slotsF slotsD : List DirEntryData) (nameF nameD : List Nat)
    (cluster : Nat) (fresh : List DirEntryData) (pfc : Option Nat) :
    ((find_entry slotsF nameF (some false) (some (ShortNameGenerator.new nameF))).1 =
        .error ⟨.otherKind, "Is a directory"⟩ →
      Dir.create_file slotsF nameF = (.error ⟨.otherKind, "Is a directory"⟩, slotsF)) ∧
    ((find_entry slotsD nameD (some true) (some (ShortNameGenerator.new nameD))).1 =
        .error ⟨.otherKind, "Not a directory"⟩ →
      Dir.create_dir slotsD nameD cluster fresh pfc =
        (.error ⟨.otherKind, "Not a directory"⟩, slotsD, fresh, false)) := by
  constructor
  · intro h
    simp only [Dir.create_file]
    rw [h]
    rfl
  · intro h
    simp only [Dir.create_dir]
    rw [h]
    rfl

/-- Witness for C10: a directory whose entry `D` is a subdirectory makes
`create_file "D"` fail with "Is a directory", and a directory whose entry `A`
is a plain file makes `create_dir "A"` fail with "Not a directory"; neither
writes anything. -/
theorem claim_C10_witness :
    Dir.create_file [exSlotD, exEnd] [0x44] =
      (.error ⟨.otherKind, "Is a directory"⟩, [exSlotD, exEnd]) ∧
    Dir.create_dir [exSlotA, exEnd] [0x41] 7 [exEnd] none =
      (.error ⟨.otherKind, "Not a directory"⟩, [exSlotA, exEnd], [exEnd], false) :=
  ⟨(claim_C10_create_kind_mismatch [exSlotD, exEnd] [exSlotA, exEnd] [0x44] [0x41]
      7 [exEnd] none).1 rfl,
   (claim_C10_create_kind_mismatch [exSlotD, exEnd] [exSlotA, exEnd] [0x44] [0x41]
      7 [exEnd] none).2 rfl⟩

/-! ## Claim C8: removing a non-empty directory fails and changes nothing -/

theorem isEmptyGo_ok_false (es : List DirEntry)
    (h : ∃ e ∈ es, e.fileName ≠ [0x2E] ∧ e.fileName ≠ [0x2E, 0x2E]) :
    isEmptyGo es none = .ok false := by
  induction es with
  | nil => rcases h with ⟨e, he, _⟩; cases he
  | cons e es ih =>
    unfold isEmptyGo
    split_ifs with hcond
    · rfl
    · rcases h with ⟨e', he', hne⟩
      rcases List.mem_cons.mp he' with rfl | hmem
      · exact absurd hne hcond
      · exact ih ⟨e', hmem, hne⟩

/-- C8: when the final component names a directory whose contents include an
entry that is neither "." nor "..", `remove` fails with the NotFound-kind
error "removing non-empty directory is denied", the parent slots are
unchanged and no cluster chain is freed. -/
theorem claim_C8_remove_nonempty (dirOf : Nat → List DirEntryData)
    (slots : List DirEntryData) (name : List Nat) (e : DirEntry)
    (hfind : (find_entry slots name none none).1 = .ok e)
    (hdir : e.isDir = true)
    (hterm : (collectEntries (dirOf e.data.firstCluster)).2 = none)
    (hne : ∃ e' ∈ (collectEntries (dirOf e.data.firstCluster)).1,
        e'.fileName ≠ [0x2E] ∧ e'.fileName ≠ [0x2E, 0x2E]) :
    Dir.remove dirOf slots name =
      (.error ⟨.notFound, "removing non-empty directory is denied"⟩, slots, []) := by
  have hemp : is_empty (dirOf e.data.firstCluster) = .ok false := by
    simp only [is_empty]
    rw [hterm]
    exact isEmptyGo_ok_false _ hne
  unfold Dir.remove
  rw [hfind]
  simp only [hdir, hemp, if_true, Bool.not_false, Bool.and_self, if_pos]

/-- Witness for C8: removing the directory `D` whose contents hold a file
entry besides "." and ".." fails and leaves everything unchanged. -/
theorem claim_C8_witness :
    Dir.remove (fun _ => [exDot, exDotdot, exSlotA, exEnd]) [exSlotD, exEnd] [0x44] =
      (.error ⟨.notFound, "removing non-empty directory is denied"⟩,
       [exSlotD, exEnd], []) :=
  claim_C8_remove_nonempty (fun _ => [exDot, exDotdot, exSlotA, exEnd])
    [exSlotD, exEnd] [0x44]
    { data := { name := 0x44 :: List.replicate 10 0x20, attrs := 0x10,
                firstCluster := 5, size := 0 },
      lfn := [], offsetRange := (0, 32) }
    rfl rfl rfl
    ⟨{ data := { name := 0x41 :: List.replicate 10 0x20, attrs := 0,
                 firstCluster := 0, size := 0 },
       lfn := [], offsetRange := (64, 96) }, by decide, by decide, by decide⟩

/-! ## Claim C2: rename with an existing destination -/

/-- C2: the claim says `rename` verifies the destination name is unused
*before* marking any source slot free, so that a failed rename leaves the
source intact.  `rename_internal` actually frees the source slots first and
only then checks the destination: renaming `A` onto the existing `B` fails
with AlreadyExists, yet the source slot has been marked free (byte 0 is now
0xE5) and a subsequent iteration of the source directory yields nothing. -/
theorem claim_C2_rename_frees_source_on_conflict :
    Dir.rename_internal [exSlotA, exEnd] [exSlotB, exEnd] [0x41] [0x42] =
      (.error ⟨.alreadyExists, "destination file already exists"⟩,
       [exSlotA.setFree, exEnd], [exSlotB, exEnd]) ∧
    exSlotA.setFree ≠ exSlotA ∧
    (collectEntries [exSlotA.setFree, exEnd]).1 = [] :=
  ⟨rfl, by decide, rfl⟩

/-! ## Claim C6: the free-slot finder is first-fit -/

def defaultSlot : DirEntryData := .file { name := [], attrs := 0, firstCluster := 0, size := 0 }

/-- The slot at index `j` (out-of-range reads never occur in the claims). -/
def slotAt (slots : List DirEntryData) (j : Nat) : DirEntryData :=
  (slots[j]?).getD defaultSlot

/-- Index of the first end-of-directory sentinel. -/
def endIdx (slots : List DirEntryData) : Nat :=
  slots.findIdx (fun s => s.isEndSlot)

/-- Slot `j` counts as reusable for allocation: it is free, or it sits at or
after the end-of-directory marker (the tail the run may continue into). -/
def freeOrTail (slots : List DirEntryData) (j : Nat) : Prop :=
  endIdx slots ≤ j ∨ (slotAt slots j).isFreeSlot = true

instance (slots : List DirEntryData) (j : Nat) : Decidable (freeOrTail slots j) := by
  unfold freeOrTail; infer_instance

/-- `f` starts a run of `N` consecutive reusable slots. -/
def goodRun (slots : List DirEntryData) (N f : Nat) : Prop :=
  ∀ k < N, freeOrTail slots (f + k)

instance (slots : List DirEntryData) (N f : Nat) : Decidable (goodRun slots N f) := by
  unfold goodRun; infer_instance

/-- Some run always exists: the tail starting at the end marker. -/
theorem goodRun_exists (slots : List DirEntryData) (N : Nat) :
    ∃ f, goodRun slots N f :=
  ⟨endIdx slots, fun _k _ => Or.inl (Nat.le_add_right _ _)⟩

theorem slotAt_of_lt (slots : List DirEntryData) (j : Nat) (h : j < slots.length) :
    slotAt slots j = slots[j] := by
  simp [slotAt, List.getElem?_eq_getElem h]

theorem findFreeGo_correct (slots : List DirEntryData) (N : Nat) (hN : 1 ≤ N) :
    ∀ (rest : List DirEntryData) (i first_free num_free : Nat),
      rest = slots.drop i →
      num_free < N →
      num_free ≤ i →
      (num_free ≠ 0 → first_free = i - num_free) →
      (∀ j, i - num_free ≤ j → j < i → (slotAt slots j).isFreeSlot = true) →
      (∀ f, f < i - num_free → ¬ goodRun slots N f) →
      (∀ j, j < i → (slotAt slots j).isEndSlot = false) →
      (∃ j, i ≤ j ∧ j < slots.length ∧ (slotAt slots j).isEndSlot = true) →
      findFreeGo N rest first_free num_free i =
        .ok (DIR_ENTRY_SIZE * Nat.find (goodRun_exists slots N)) := by
  intro rest
  induction rest with
  | nil =>
    intro i ff nf hdrop _ _ _ _ _ _ hex
    rcases hex with ⟨j, hij, hjlen, _⟩
    have hlen : slots.length ≤ i := List.drop_eq_nil_iff.mp hdrop.symm
    omega
  | cons s rest' ih =>
    intro i ff nf hdrop hnfN hnfi hffv hrun hmin hnoend hex
    have hsome : slots[i]? = some s := by
      have h0 : (slots.drop i)[0]? = slots[i + 0]? := List.getElem?_drop slots i 0
      rw [← hdrop] at h0
      simpa using h0.symm
    have hilen : i < slots.length := by
      by_contra hc
      rw [List.getElem?_eq_none (by omega)] at hsome
      cases hsome
    have hsAt : slotAt slots i = s := by simp [slotAt, hsome]
    have hrest' : rest' = slots.drop (i + 1) := by
      have h1 : (s :: rest').drop 1 = (slots.drop i).drop 1 := by rw [hdrop]
      simpa [List.drop_drop, Nat.add_comm] using h1
    have hval : (if nf = 0 then i else ff) = i - nf := by
      split_ifs with h0
      · omega
      · rw [hffv h0]
    simp only [findFreeGo]
    by_cases hend : s.isEndSlot = true
    · simp only [hend, if_true, hval]
      have hEi : endIdx slots = i := by
        unfold endIdx
        rw [List.findIdx_eq hilen]
        refine ⟨by rw [← slotAt_of_lt slots i hilen, hsAt]; exact hend, ?_⟩
        intro j hj
        rw [← slotAt_of_lt slots j (by omega)]
        exact hnoend j hj
      have hfind : Nat.find (goodRun_exists slots N) = i - nf := by
        rw [Nat.find_eq_iff]
        constructor
        · intro k hk
          by_cases hki : i - nf + k < i
          · exact Or.inr (hrun _ (by omega) hki)
          · exact Or.inl (by rw [hEi]; omega)
        · intro m hm
          exact hmin m (by omega)
      rw [hfind]
    · have hendF : s.isEndSlot = false := by simpa using hend
      simp only [hendF, Bool.false_eq_true, if_false]
      by_cases hfree : s.isFreeSlot = true
      · simp only [hfree, if_true, hval]
        by_cases hNN : nf + 1 = N
        · simp only [hNN, if_true]
          have hfind : Nat.find (goodRun_exists slots N) = i - nf := by
            rw [Nat.find_eq_iff]
            constructor
            · intro k hk
              by_cases hki : i - nf + k < i
              · exact Or.inr (hrun _ (by omega) hki)
              · have hki2 : i - nf + k = i := by omega
                exact Or.inr (by rw [hki2, hsAt]; exact hfree)
            · intro m hm
              exact hmin m (by omega)
          rw [hfind]
        · simp only [hNN, if_false]
          refine ih (i + 1) (i - nf) (nf + 1) hrest' (by omega) (by omega)
            (fun _ => by omega) ?_ ?_ ?_ ?_
          · intro j hj1 hj2
            by_cases hji : j < i
            · exact hrun j (by omega) hji
            · have : j = i := by omega
              rw [this, hsAt]; exact hfree
          · intro f hf
            exact hmin f (by omega)
          · intro j hj
            by_cases hji : j < i
            · exact hnoend j hji
            · have : j = i := by omega
              rw [this, hsAt]; exact hendF
          · rcases hex with ⟨j, hij, hjlen, hjend⟩
            refine ⟨j, ?_, hjlen, hjend⟩
            rcases Nat.eq_or_lt_of_le hij with rfl | h
            · rw [hsAt] at hjend; rw [hjend] at hendF; cases hendF
            · omega
      · have hfreeF : s.isFreeSlot = false := by simpa using hfree
        simp only [hfreeF, Bool.false_eq_true, if_false]
        refine ih (i + 1) ff 0 hrest' (by omega) (by omega)
          (fun h => absurd rfl h) (fun j h1 h2 => by omega) ?_ ?_ ?_
        · intro f hf
          by_cases hf2 : f < i - nf
          · exact hmin f hf2
          · intro hg
            have hiE : i < endIdx slots := by
              unfold endIdx
              apply List.lt_findIdx_of_not hilen
              intro j hj
              simp only [List.get_eq_getElem]
              rw [← slotAt_of_lt slots j (by omega)]
              rcases Nat.eq_or_lt_of_le hj with rfl | h
              · rw [hsAt, hendF]; simp
              · rw [hnoend j h]; simp
            have hfi : f + (i - f) = i := by omega
            rcases hg (i - f) (by omega) with h | h
            · rw [hfi] at h; omega
            · rw [hfi, hsAt] at h
              rw [h] at hfreeF; cases hfreeF
        · intro j hj
          by_cases hji : j < i
          · exact hnoend j hji
          · have : j = i := by omega
            rw [this, hsAt]; exact hendF
        · rcases hex with ⟨j, hij, hjlen, hjend⟩
          refine ⟨j, ?_, hjlen, hjend⟩
          rcases Nat.eq_or_lt_of_le hij with rfl | h
          · rw [hsAt] at hjend; rw [hjend] at hendF; cases hendF
          · omega

/-- C6: for every slot sequence containing an end-of-directory marker and
every `N ≥ 1`, `find_free_entries(N)` succeeds and positions the stream at
byte offset `32 · f` where `f` is the smallest slot index starting a run of
`N` consecutive slots each of which is free or at/after the end marker:
allocation is first-fit from the directory start, with a free run adjacent to
the end marker continuing into the tail. -/
theorem claim_C6_find_free_first_fit (slots : List DirEntryData) (N : Nat)
    (hN : 1 ≤ N)
    (hE : ∃ j, j < slots.length ∧ (slotAt slots j).isEndSlot = true) :
    find_free_entries slots N =
      .ok (DIR_ENTRY_SIZE * Nat.find (goodRun_exists slots N)) := by
  unfold find_free_entries
  refine findFreeGo_correct slots N hN slots 0 0 0 rfl (by omega) (by omega)
    (fun h => absurd rfl h) (fun j h1 h2 => by omega) (fun f hf => by omega)
    (fun j hj => by omega) ?_
  rcases hE with ⟨j, hjlen, hjend⟩
  exact ⟨j, by omega, hjlen, hjend⟩

def exFreeSlot : DirEntryData :=
  .file { name := 0xE5 :: List.replicate 10 0x20, attrs := 0, firstCluster := 0, size := 0 }

def exDirHole : List DirEntryData := [exSlotA, exFreeSlot, exFreeSlot, exSlotB, exEnd]

/-- Witness for C6 on a directory with a two-slot hole: a three-slot request
skips the hole and lands on the end-marker tail. -/
theorem claim_C6_witness :
    find_free_entries exDirHole 3 =
      .ok (DIR_ENTRY_SIZE * Nat.find (goodRun_exists exDirHole 3)) ∧
    find_free_entries exDirHole 3 = .ok 128 :=
  ⟨claim_C6_find_free_first_fit exDirHole 3 (by omega) ⟨4, by decide, by decide⟩, rfl⟩

/-! ## Claim C4: generated short names are collision-free -/

namespace ShortNameGenerator

theorem copyPart_emit_le (src : List Nat) : ∀ room, (copyPart room src).1.length ≤ room := by
  induction src with
  | nil => intro room; simp [copyPart]
  | cons c cs ih =>
    intro room
    simp only [copyPart]
    split_ifs with h0 hsd hac <;>
      simp only [List.length_nil, List.length_cons] <;>
      first
        | omega
        | exact ih room
        | (have h9 := ih (room - 1); omega)

theorem foldl_lt_bound {α : Type} (l : List α) (f : Nat → α → Nat) (B : Nat) :
    ∀ init, init < B → (∀ a b, f a b < B) → l.foldl f init < B := by
  induction l with
  | nil => intro init h _; exact h
  | cons x xs ih => intro init _ hf; exact ih (f init x) (hf init x) hf

theorem new_short_name_length (name : List Nat) :
    (new name).short_name.length = 11 := by
  unfold new
  cases h : splitLastDot name with
  | some be =>
    simp only [h, padSpaces, List.length_append, List.length_replicate]
    have h1 := copyPart_emit_le be.1 8
    have h2 := copyPart_emit_le be.2 3
    omega
  | none =>
    simp only [h, padSpaces, List.length_append, List.length_replicate, List.length_nil]
    have h1 := copyPart_emit_le name 8
    omega

theorem new_basename_le (name : List Nat) : (new name).basename_len ≤ 8 := by
  unfold new
  cases h : splitLastDot name with
  | some be => simpa [h] using copyPart_emit_le be.1 8
  | none => simpa [h] using copyPart_emit_le name 8

theorem checksum_lt (name : List Nat) : checksum name < 65536 :=
  foldl_lt_bound name _ 65536 0 (by norm_num)
    (fun a b => Nat.mod_lt _ (by norm_num))

theorem new_chksum_lt (name : List Nat) : (new name).chksum < 65536 := by
  unfold new
  cases h : splitLastDot name <;> simp [h, checksum_lt]

/-- Each section of `add_existing` only raises collision flags and never
changes the derived base name, its length, the checksum or the Phase-A
flags. -/
theorem addExactCheck_fields (g : ShortNameGenerator) (s : List Nat) :
    (addExactCheck g s).short_name = g.short_name ∧
    (addExactCheck g s).basename_len = g.basename_len ∧
    (addExactCheck g s).chksum = g.chksum ∧
    (addExactCheck g s).lossy_conv = g.lossy_conv ∧
    (addExactCheck g s).name_fits = g.name_fits ∧
    (addExactCheck g s).long_prefix_bitmap = g.long_prefix_bitmap ∧
    (addExactCheck g s).prefix_chksum_bitmap = g.prefix_chksum_bitmap := by
  unfold addExactCheck
  split_ifs <;> exact ⟨rfl, rfl, rfl, rfl, rfl, rfl, rfl⟩

theorem addLongCheck_fields (g : ShortNameGenerator) (s : List Nat) :
    (addLongCheck g s).short_name = g.short_name ∧
    (addLongCheck g s).basename_len = g.basename_len ∧
    (addLongCheck g s).chksum = g.chksum ∧
    (addLongCheck g s).lossy_conv = g.lossy_conv ∧
    (addLongCheck g s).name_fits = g.name_fits ∧
    (addLongCheck g s).exact_match = g.exact_match ∧
    (addLongCheck g s).prefix_chksum_bitmap = g.prefix_chksum_bitmap := by
  simp only [addLongCheck]
  split_ifs <;> exact ⟨rfl, rfl, rfl, rfl, rfl, rfl, rfl⟩

theorem addChksumCheck_fields (g : ShortNameGenerator) (s : List Nat) :
    (addChksumCheck g s).short_name = g.short_name ∧
    (addChksumCheck g s).basename_len = g.basename_len ∧
    (addChksumCheck g s).chksum = g.chksum ∧
    (addChksumCheck g s).lossy_conv = g.lossy_conv ∧
    (addChksumCheck g s).name_fits = g.name_fits ∧
    (addChksumCheck g s).exact_match = g.exact_match ∧
    (addChksumCheck g s).long_prefix_bitmap = g.long_prefix_bitmap := by
  simp only [addChksumCheck]
  split_ifs <;> exact ⟨rfl, rfl, rfl, rfl, rfl, rfl, rfl⟩

theorem add_existing_fields (g : ShortNameGenerator) (s : List Nat) :
    (g.add_existing s).short_name = g.short_name ∧
    (g.add_existing s).basename_len = g.basename_len ∧
    (g.add_existing s).chksum = g.chksum ∧
    (g.add_existing s).lossy_conv = g.lossy_conv ∧
    (g.add_existing s).name_fits = g.name_fits := by
  unfold add_existing
  obtain ⟨e1, e2, e3, e4, e5, -, -⟩ := addExactCheck_fields g s
  obtain ⟨l1, l2, l3, l4, l5, -, -⟩ := addLongCheck_fields (addExactCheck g s) s
  obtain ⟨c1, c2, c3, c4, c5, -, -⟩ :=
    addChksumCheck_fields (addLongCheck (addExactCheck g s) s) s
  exact ⟨by rw [c1, l1, e1], by rw [c2, l2, e2], by rw [c3, l3, e3],
    by rw [c4, l4, e4], by rw [c5, l5, e5]⟩

theorem add_existing_exact_mono (g : ShortNameGenerator) (s : List Nat)
    (h : g.exact_match = true) : (g.add_existing s).exact_match = true := by
  unfold add_existing
  rw [(addChksumCheck_fields _ _).2.2.2.2.2.1, (addLongCheck_fields _ _).2.2.2.2.2.1]
  unfold addExactCheck
  split_ifs <;> first | exact h | rfl

theorem add_existing_long_bit_mono (g : ShortNameGenerator) (s : List Nat) (i : Nat)
    (h : g.long_prefix_bitmap &&& (1 <<< i) ≠ 0) :
    (g.add_existing s).long_prefix_bitmap &&& (1 <<< i) ≠ 0 := by
  unfold add_existing
  rw [(addChksumCheck_fields _ _).2.2.2.2.2.2]
  have h2 : (addExactCheck g s).long_prefix_bitmap &&& (1 <<< i) ≠ 0 := by
    rw [(addExactCheck_fields g s).2.2.2.2.2.1]; exact h
  simp only [addLongCheck]
  split_ifs <;> first
    | exact bit_persist _ _ _ h2
    | exact h2

theorem add_existing_chksum_bit_mono (g : ShortNameGenerator) (s : List Nat) (i : Nat)
    (h : g.prefix_chksum_bitmap &&& (1 <<< i) ≠ 0) :
    (g.add_existing s).prefix_chksum_bitmap &&& (1 <<< i) ≠ 0 := by
  unfold add_existing
  have h2 : (addLongCheck (addExactCheck g s) s).prefix_chksum_bitmap &&& (1 <<< i) ≠ 0 := by
    rw [(addLongCheck_fields _ _).2.2.2.2.2.2, (addExactCheck_fields g s).2.2.2.2.2.2]
    exact h
  simp only [addChksumCheck]
  split_ifs <;> first
    | exact bit_persist _ _ _ h2
    | exact h2

theorem add_existing_exact_set (g : ShortNameGenerator) (s : List Nat)
    (h : s = g.short_name) : (g.add_existing s).exact_match = true := by
  unfold add_existing
  rw [(addChksumCheck_fields _ _).2.2.2.2.2.1, (addLongCheck_fields _ _).2.2.2.2.2.1]
  unfold addExactCheck
  rw [if_pos h]

theorem setSlice_replicate_zero (s : List Nat) (_hs : s.length ≤ 11) :
    setSlice (List.replicate 11 0x20) 0 s = s ++ List.replicate (11 - s.length) 0x20 := by
  simp only [setSlice, List.take_zero, List.nil_append, Nat.zero_add, List.drop_replicate]

/-- Closed form of the long-prefix candidate `P~d` + extension. -/
theorem build_long_form (g : ShortNameGenerator) (num : Nat)
    (hsn : g.short_name.length = 11) :
    g.build_prefixed_name num false =
      g.short_name.take (min g.basename_len 6) ++
        0x7E :: (0x30 + num) ::
          (List.replicate (6 - min g.basename_len 6) 0x20 ++ g.short_name.drop 8) := by
  have hp6 : min g.basename_len 6 ≤ 6 := Nat.min_le_right _ _
  set p := min g.basename_len 6 with hp
  have htl : (g.short_name.take p).length = p := by
    rw [List.length_take]; omega
  unfold build_prefixed_name
  simp only [Bool.false_eq_true, if_false, ← hp]
  rw [setSlice_replicate_zero _ (by omega), htl]
  rw [List.set_append_right _ _ (by omega), htl, Nat.sub_self]
  rw [show (List.replicate (11 - p) 0x20).set 0 0x7E =
      0x7E :: List.replicate (10 - p) 0x20 by
    rw [show 11 - p = (10 - p) + 1 by omega, List.replicate_succ, List.set_cons_zero]]
  rw [List.set_append_right _ _ (by omega), htl,
    show p + 1 - p = 1 by omega, List.set_cons_succ]
  rw [show (List.replicate (10 - p) 0x20).set 0 (0x30 + num) =
      (0x30 + num) :: List.replicate (9 - p) 0x20 by
    rw [show 10 - p = (9 - p) + 1 by omega, List.replicate_succ, List.set_cons_zero]]
  unfold setSlice
  have hshape : g.short_name.take p ++ 0x7E :: (0x30 + num) :: List.replicate (9 - p) 0x20 =
      (g.short_name.take p ++ 0x7E :: (0x30 + num) :: List.replicate (6 - p) 0x20) ++
        List.replicate (3 : Nat) 0x20 := by
    simp only [List.append_assoc, List.cons_append, List.cons.injEq, true_and]
    rw [show 9 - p = (6 - p) + 3 by omega, List.replicate_add]
  rw [hshape]
  have hlen8 : (g.short_name.take p ++ 0x7E :: (0x30 + num) ::
      List.replicate (6 - p) 0x20).length = 8 := by
    simp only [List.length_append, List.length_cons, List.length_replicate, htl]
    omega
  rw [List.take_left' hlen8]
  have hdlen : (g.short_name.drop 8).length = 3 := by
    rw [List.length_drop, hsn]
  rw [show (8 : Nat) + (g.short_name.drop 8).length = 11 by rw [hdlen]]
  have hlen11 : ((g.short_name.take p ++ 0x7E :: (0x30 + num) ::
      List.replicate (6 - p) 0x20) ++ List.replicate (3 : Nat) 0x20).length = 11 := by
    simp only [List.length_append, hlen8, List.length_replicate]
  rw [List.drop_eq_nil_of_le (le_of_eq hlen11), List.append_nil, List.append_assoc,
    List.cons_append, List.cons_append]

/-- Closed form of the checksum candidate `P HHHH ~d` + extension. -/
theorem build_chksum_form (g : ShortNameGenerator) (num : Nat)
    (hsn : g.short_name.length = 11) :
    g.build_prefixed_name num true =
      g.short_name.take (min g.basename_len 2) ++
        (u16_to_u8_array g.chksum ++
          0x7E :: (0x30 + num) ::
            (List.replicate (2 - min g.basename_len 2) 0x20 ++ g.short_name.drop 8)) := by
  have hp2 : min g.basename_len 2 ≤ 2 := Nat.min_le_right _ _
  set p := min g.basename_len 2 with hp
  have htl : (g.short_name.take p).length = p := by
    rw [List.length_take]; omega
  have hhl : (u16_to_u8_array g.chksum).length = 4 := rfl
  unfold build_prefixed_name
  simp only [if_true, ← hp]
  rw [setSlice_replicate_zero _ (by omega), htl]
  rw [show setSlice (g.short_name.take p ++ List.replicate (11 - p) 0x20) p
        (u16_to_u8_array g.chksum) =
      g.short_name.take p ++ (u16_to_u8_array g.chksum ++ List.replicate (7 - p) 0x20) by
    unfold setSlice
    rw [List.take_append_of_le_length (le_of_eq htl.symm), List.take_take, Nat.min_self,
      hhl, show p + 4 = (g.short_name.take p).length + 4 by rw [htl],
      List.drop_append, List.drop_replicate, show 11 - p - 4 = 7 - p by omega,
      List.append_assoc]]
  have hset1 : (g.short_name.take p ++
        (u16_to_u8_array g.chksum ++ List.replicate (7 - p) 0x20)).set (p + 4) 0x7E =
      g.short_name.take p ++
        (u16_to_u8_array g.chksum ++ 0x7E :: List.replicate (6 - p) 0x20) := by
    rw [List.set_append_right _ _ (by omega), htl,
      show p + 4 - p = 4 by omega,
      List.set_append_right _ _ (by rw [hhl]), hhl, Nat.sub_self]
    rw [show (List.replicate (7 - p) 0x20).set 0 0x7E =
        0x7E :: List.replicate (6 - p) 0x20 by
      rw [show 7 - p = (6 - p) + 1 by omega, List.replicate_succ, List.set_cons_zero]]
  rw [hset1]
  have hset2 : (g.short_name.take p ++
        (u16_to_u8_array g.chksum ++ 0x7E :: List.replicate (6 - p) 0x20)).set
          (p + 4 + 1) (0x30 + num) =
      g.short_name.take p ++
        (u16_to_u8_array g.chksum ++
          0x7E :: (0x30 + num) :: List.replicate (5 - p) 0x20) := by
    rw [List.set_append_right _ _ (by omega), htl,
      show p + 4 + 1 - p = 5 by omega,
      List.set_append_right _ _ (by rw [hhl]; omega), hhl,
      show (5 : Nat) - 4 = 1 from rfl, List.set_cons_succ]
    rw [show (List.replicate (6 - p) 0x20).set 0 (0x30 + num) =
        (0x30 + num) :: List.replicate (5 - p) 0x20 by
      rw [show 6 - p = (5 - p) + 1 by omega, List.replicate_succ, List.set_cons_zero]]
  rw [hset2]
  unfold setSlice
  have hshape : g.short_name.take p ++ (u16_to_u8_array g.chksum ++
        0x7E :: (0x30 + num) :: List.replicate (5 - p) 0x20) =
      (g.short_name.take p ++ u16_to_u8_array g.chksum ++
        0x7E :: (0x30 + num) :: List.replicate (2 - p) 0x20) ++
          List.replicate (3 : Nat) 0x20 := by
    simp only [List.append_assoc, List.cons_append, List.cons.injEq, true_and,
      List.append_cancel_left_eq]
    rw [show 5 - p = (2 - p) + 3 by omega, List.replicate_add]
  rw [hshape]
  have hlen8 : (g.short_name.take p ++ u16_to_u8_array g.chksum ++
      0x7E :: (0x30 + num) :: List.replicate (2 - p) 0x20).length = 8 := by
    simp only [List.length_append, List.length_cons, List.length_replicate, htl, hhl]
    omega
  rw [List.take_left' hlen8]
  have hdlen : (g.short_name.drop 8).length = 3 := by
    rw [List.length_drop, hsn]
  rw [show (8 : Nat) + (g.short_name.drop 8).length = 11 by rw [hdlen]]
  have hlen11 : ((g.short_name.take p ++ u16_to_u8_array g.chksum ++
      0x7E :: (0x30 + num) :: List.replicate (2 - p) 0x20) ++
        List.replicate (3 : Nat) 0x20).length = 11 := by
    simp only [List.length_append, List.length_cons, List.length_replicate, htl, hhl]
    omega
  rw [List.drop_eq_nil_of_le (le_of_eq hlen11), List.append_nil]
  simp only [List.append_assoc, List.cons_append]


theorem toDigit10_of_digit (d : Nat) (hd : d ≤ 9) : toDigit10 (0x30 + d) = some d := by
  unfold toDigit10
  rw [if_pos (by omega)]
  congr 1
  omega

theorem hexDigitVal_roundtrip (y : Nat) (hy : y < 16) :
    hexDigitVal (hexDigitChar y) = some y := by
  unfold hexDigitChar hexDigitVal
  split_ifs <;> (congr 1; omega)

theorem hexDigitChar_lt (y : Nat) (hy : y < 16) : hexDigitChar y < 0x80 := by
  unfold hexDigitChar
  split_ifs <;> omega

theorem hexDigitChar_ne_plus (y : Nat) (hy : y < 16) : hexDigitChar y ≠ 0x2B := by
  unfold hexDigitChar
  split_ifs <;> omega

theorem parseHexU16_cons (b : Nat) (rest : List Nat) :
    parseHexU16 (b :: rest) =
      if (b :: rest).any (fun c => decide (0x80 ≤ c)) then none
      else if b = 0x2B then parseHexDigits rest else parseHexDigits (b :: rest) := rfl

/-- Parsing the four uppercase hex digits written by `u16_to_u8_array`
recovers the checksum. -/
theorem parseHex_roundtrip (x : Nat) (hx : x < 65536) :
    parseHexU16 (u16_to_u8_array x) = some x := by
  have d1 : x / 4096 % 16 < 16 := Nat.mod_lt _ (by norm_num)
  have d2 : x / 256 % 16 < 16 := Nat.mod_lt _ (by norm_num)
  have d3 : x / 16 % 16 < 16 := Nat.mod_lt _ (by norm_num)
  have d4 : x % 16 < 16 := Nat.mod_lt _ (by norm_num)
  unfold u16_to_u8_array
  rw [parseHexU16_cons]
  rw [if_neg (by
    simp only [List.any_cons, List.any_nil, Bool.or_eq_true, decide_eq_true_eq]
    push_neg
    refine ⟨?_, ?_, ?_, ?_, by simp⟩ <;> exact hexDigitChar_lt _ (by omega))]
  rw [if_neg (hexDigitChar_ne_plus _ (by omega))]
  have hstep : ∀ a y, y < 16 → a * 16 + y < 65536 →
      parseStep (some a) (hexDigitChar y) = some (a * 16 + y) := by
    intro a y hy hlt
    unfold parseStep
    rw [hexDigitVal_roundtrip _ hy]
    simp only [hlt, if_pos]
  unfold parseHexDigits
  rw [if_neg (by simp)]
  simp only [List.foldl_cons, List.foldl_nil]
  rw [hstep _ _ d1 (by omega), hstep _ _ d2 (by omega), hstep _ _ d3 (by omega),
    hstep _ _ d4 (by omega)]
  congr 1
  omega


/-- If the added short name matches the long-prefix pattern of the current
generator state, `add_existing` raises the corresponding bitmap bit. -/
theorem addLongCheck_sets (g : ShortNameGenerator) (s : List Nat) (d : Nat)
    (h1 : s.take (min g.basename_len 6) = g.short_name.take (min g.basename_len 6))
    (h2 : s.getD (min g.basename_len 6) 0 = 0x7E)
    (h3 : toDigit10 (s.getD (min g.basename_len 6 + 1) 0) = some d)
    (h4 : s.drop 8 = g.short_name.drop 8) :
    (addLongCheck g s).long_prefix_bitmap &&& (1 <<< d) ≠ 0 := by
  simp only [addLongCheck, h2, if_pos, h3]
  rw [if_pos ⟨h1, by simp, h4⟩]
  exact bit_set_after_or _ _

theorem add_existing_sets_long (g : ShortNameGenerator) (s : List Nat) (d : Nat)
    (h1 : s.take (min g.basename_len 6) = g.short_name.take (min g.basename_len 6))
    (h2 : s.getD (min g.basename_len 6) 0 = 0x7E)
    (h3 : toDigit10 (s.getD (min g.basename_len 6 + 1) 0) = some d)
    (h4 : s.drop 8 = g.short_name.drop 8) :
    (g.add_existing s).long_prefix_bitmap &&& (1 <<< d) ≠ 0 := by
  unfold add_existing
  rw [(addChksumCheck_fields _ _).2.2.2.2.2.2]
  obtain ⟨e1, e2, -, -, -, -, -⟩ := addExactCheck_fields g s
  exact addLongCheck_sets _ s d (by rw [e1, e2]; exact h1) (by rw [e2]; exact h2)
    (by rw [e2]; exact h3) (by rw [e1]; exact h4)

/-- If the added short name matches the checksum pattern of the current
generator state, `add_existing` raises the corresponding bitmap bit. -/
theorem addChksumCheck_sets (g : ShortNameGenerator) (s : List Nat) (d : Nat)
    (h1 : s.take (min g.basename_len 2) = g.short_name.take (min g.basename_len 2))
    (h2 : s.getD (min g.basename_len 2 + 4) 0 = 0x7E)
    (h3 : toDigit10 (s.getD (min g.basename_len 2 + 4 + 1) 0) = some d)
    (h4 : s.drop 8 = g.short_name.drop 8)
    (h5 : parseHexU16 ((s.drop (min g.basename_len 2)).take 4) = some g.chksum) :
    (addChksumCheck g s).prefix_chksum_bitmap &&& (1 <<< d) ≠ 0 := by
  simp only [addChksumCheck, h2, if_pos, h3]
  rw [if_pos ⟨h1, by simp, h4⟩, if_pos h5]
  exact bit_set_after_or _ _

theorem add_existing_sets_chksum (g : ShortNameGenerator) (s : List Nat) (d : Nat)
    (h1 : s.take (min g.basename_len 2) = g.short_name.take (min g.basename_len 2))
    (h2 : s.getD (min g.basename_len 2 + 4) 0 = 0x7E)
    (h3 : toDigit10 (s.getD (min g.basename_len 2 + 4 + 1) 0) = some d)
    (h4 : s.drop 8 = g.short_name.drop 8)
    (h5 : parseHexU16 ((s.drop (min g.basename_len 2)).take 4) = some g.chksum) :
    (g.add_existing s).prefix_chksum_bitmap &&& (1 <<< d) ≠ 0 := by
  unfold add_existing
  obtain ⟨e1, e2, e3, -, -, -, -⟩ := addExactCheck_fields g s
  obtain ⟨l1, l2, l3, -, -, -, -⟩ := addLongCheck_fields (addExactCheck g s) s
  exact addChksumCheck_sets _ s d (by rw [l1, e1, l2, e2]; exact h1)
    (by rw [l2, e2]; exact h2) (by rw [l2, e2]; exact h3) (by rw [l1, e1]; exact h4)
    (by rw [l2, e2, l3, e3]; exact h5)

/-- The long-prefix candidate satisfies the patterns that `add_existing`
checks for, with suffix digit `i`. -/
theorem long_candidate_props (g : ShortNameGenerator) (i : Nat) (hi : i ≤ 9)
    (hsn : g.short_name.length = 11) :
    (g.build_prefixed_name i false).take (min g.basename_len 6) =
      g.short_name.take (min g.basename_len 6) ∧
    (g.build_prefixed_name i false).getD (min g.basename_len 6) 0 = 0x7E ∧
    toDigit10 ((g.build_prefixed_name i false).getD (min g.basename_len 6 + 1) 0) =
      some i ∧
    (g.build_prefixed_name i false).drop 8 = g.short_name.drop 8 := by
  have hp6 : min g.basename_len 6 ≤ 6 := Nat.min_le_right _ _
  set p := min g.basename_len 6 with hp
  have htl : (g.short_name.take p).length = p := by
    rw [List.length_take]; omega
  rw [build_long_form g i hsn, ← hp]
  refine ⟨List.take_left' htl, ?_, ?_, ?_⟩
  · rw [List.getD_append_right _ _ _ _ (by rw [htl]), htl, Nat.sub_self]
    rfl
  · rw [List.getD_append_right _ _ _ _ (by omega), htl,
      show p + 1 - p = 1 by omega, List.getD_cons_succ, List.getD_cons_zero]
    exact toDigit10_of_digit i hi
  · rw [show g.short_name.take p ++
        0x7E :: (0x30 + i) :: (List.replicate (6 - p) 0x20 ++ g.short_name.drop 8) =
      (g.short_name.take p ++
        0x7E :: (0x30 + i) :: List.replicate (6 - p) 0x20) ++ g.short_name.drop 8 by
      simp [List.append_assoc]]
    exact List.drop_left' (by
      simp only [List.length_append, List.length_cons, List.length_replicate, htl]
      omega)

/-- The checksum candidate satisfies the patterns that `add_existing` checks
for, with suffix digit `i`. -/
theorem chksum_candidate_props (g : ShortNameGenerator) (i : Nat) (hi : i ≤ 9)
    (hsn : g.short_name.length = 11) (hck : g.chksum < 65536) :
    (g.build_prefixed_name i true).take (min g.basename_len 2) =
      g.short_name.take (min g.basename_len 2) ∧
    (g.build_prefixed_name i true).getD (min g.basename_len 2 + 4) 0 = 0x7E ∧
    toDigit10 ((g.build_prefixed_name i true).getD (min g.basename_len 2 + 4 + 1) 0) =
      some i ∧
    (g.build_prefixed_name i true).drop 8 = g.short_name.drop 8 ∧
    parseHexU16 (((g.build_prefixed_name i true).drop (min g.basename_len 2)).take 4) =
      some g.chksum := by
  have hp2 : min g.basename_len 2 ≤ 2 := Nat.min_le_right _ _
  set p := min g.basename_len 2 with hp
  have htl : (g.short_name.take p).length = p := by
    rw [List.length_take]; omega
  have hhl : (u16_to_u8_array g.chksum).length = 4 := rfl
  rw [build_chksum_form g i hsn, ← hp]
  refine ⟨List.take_left' htl, ?_, ?_, ?_, ?_⟩
  · rw [List.getD_append_right _ _ _ _ (by omega), htl,
      show p + 4 - p = 4 by omega,
      List.getD_append_right _ _ _ _ (by rw [hhl]), hhl, Nat.sub_self]
    rfl
  · rw [List.getD_append_right _ _ _ _ (by omega), htl,
      show p + 4 + 1 - p = 5 by omega,
      List.getD_append_right _ _ _ _ (by rw [hhl]; omega), hhl,
      show (5 : Nat) - 4 = 1 from rfl, List.getD_cons_succ, List.getD_cons_zero]
    exact toDigit10_of_digit i hi
  · rw [show g.short_name.take p ++ (u16_to_u8_array g.chksum ++
        0x7E :: (0x30 + i) :: (List.replicate (2 - p) 0x20 ++ g.short_name.drop 8)) =
      (g.short_name.take p ++ u16_to_u8_array g.chksum ++
        0x7E :: (0x30 + i) :: List.replicate (2 - p) 0x20) ++ g.short_name.drop 8 by
      simp [List.append_assoc]]
    exact List.drop_left' (by
      simp only [List.length_append, List.length_cons, List.length_replicate, htl, hhl]
      omega)
  · rw [List.drop_left' htl, List.take_left' hhl]
    exact parseHex_roundtrip _ hck


theorem build_congr (g g2 : ShortNameGenerator) (i : Nat) (b : Bool)
    (h1 : g.short_name = g2.short_name) (h2 : g.basename_len = g2.basename_len)
    (h3 : g.chksum = g2.chksum) :
    g.build_prefixed_name i b = g2.build_prefixed_name i b := by
  unfold build_prefixed_name
  rw [h1, h2, h3]

theorem foldl_fields (existing : List (List Nat)) : ∀ g : ShortNameGenerator,
    (existing.foldl add_existing g).short_name = g.short_name ∧
    (existing.foldl add_existing g).basename_len = g.basename_len ∧
    (existing.foldl add_existing g).chksum = g.chksum := by
  induction existing with
  | nil => intro g; exact ⟨rfl, rfl, rfl⟩
  | cons t ts ih =>
    intro g
    simp only [List.foldl_cons]
    obtain ⟨a1, a2, a3, -, -⟩ := add_existing_fields g t
    obtain ⟨b1, b2, b3⟩ := ih (g.add_existing t)
    exact ⟨b1.trans a1, b2.trans a2, b3.trans a3⟩

theorem foldl_exact_mono (existing : List (List Nat)) : ∀ g : ShortNameGenerator,
    g.exact_match = true → (existing.foldl add_existing g).exact_match = true := by
  induction existing with
  | nil => intro g h; exact h
  | cons t ts ih =>
    intro g h
    simp only [List.foldl_cons]
    exact ih _ (add_existing_exact_mono g t h)

theorem foldl_long_mono (existing : List (List Nat)) (i : Nat) :
    ∀ g : ShortNameGenerator, g.long_prefix_bitmap &&& (1 <<< i) ≠ 0 →
    (existing.foldl add_existing g).long_prefix_bitmap &&& (1 <<< i) ≠ 0 := by
  induction existing with
  | nil => intro g h; exact h
  | cons t ts ih =>
    intro g h
    simp only [List.foldl_cons]
    exact ih _ (add_existing_long_bit_mono g t i h)

theorem foldl_chksum_mono (existing : List (List Nat)) (i : Nat) :
    ∀ g : ShortNameGenerator, g.prefix_chksum_bitmap &&& (1 <<< i) ≠ 0 →
    (existing.foldl add_existing g).prefix_chksum_bitmap &&& (1 <<< i) ≠ 0 := by
  induction existing with
  | nil => intro g h; exact h
  | cons t ts ih =>
    intro g h
    simp only [List.foldl_cons]
    exact ih _ (add_existing_chksum_bit_mono g t i h)

theorem foldl_exact_of_mem (existing : List (List Nat)) (s : List Nat) :
    ∀ g : ShortNameGenerator, s ∈ existing → s = g.short_name →
    (existing.foldl add_existing g).exact_match = true := by
  induction existing with
  | nil => intro g h; cases h
  | cons t ts ih =>
    intro g hmem heq
    simp only [List.foldl_cons]
    rcases List.mem_cons.mp hmem with rfl | hmem2
    · exact foldl_exact_mono ts _ (add_existing_exact_set g s heq)
    · exact ih _ hmem2 (by rw [(add_existing_fields g t).1]; exact heq)

theorem foldl_long_of_mem (existing : List (List Nat)) (i : Nat) (hi : i ≤ 9) :
    ∀ g : ShortNameGenerator, g.short_name.length = 11 →
    g.build_prefixed_name i false ∈ existing →
    (existing.foldl add_existing g).long_prefix_bitmap &&& (1 <<< i) ≠ 0 := by
  induction existing with
  | nil => intro g _ h; cases h
  | cons t ts ih =>
    intro g hsn hmem
    simp only [List.foldl_cons]
    rcases List.mem_cons.mp hmem with heq | hmem2
    · obtain ⟨h1, h2, h3, h4⟩ := long_candidate_props g i hi hsn
      refine foldl_long_mono ts i _ ?_
      rw [← heq]
      exact add_existing_sets_long g _ i h1 h2 h3 h4
    · obtain ⟨f1, f2, f3, -, -⟩ := add_existing_fields g t
      refine ih _ (by rw [f1]; exact hsn) ?_
      rw [build_congr _ g i false f1 f2 f3]
      exact hmem2

theorem foldl_chksum_of_mem (existing : List (List Nat)) (i : Nat) (hi : i ≤ 9) :
    ∀ g : ShortNameGenerator, g.short_name.length = 11 → g.chksum < 65536 →
    g.build_prefixed_name i true ∈ existing →
    (existing.foldl add_existing g).prefix_chksum_bitmap &&& (1 <<< i) ≠ 0 := by
  induction existing with
  | nil => intro g _ _ h; cases h
  | cons t ts ih =>
    intro g hsn hck hmem
    simp only [List.foldl_cons]
    rcases List.mem_cons.mp hmem with heq | hmem2
    · obtain ⟨h1, h2, h3, h4, h5⟩ := chksum_candidate_props g i hi hsn hck
      refine foldl_chksum_mono ts i _ ?_
      rw [← heq]
      exact add_existing_sets_chksum g _ i h1 h2 h3 h4 h5
    · obtain ⟨f1, f2, f3, -, -⟩ := add_existing_fields g t
      refine ih _ (by rw [f1]; exact hsn) (by rw [f3]; exact hck) ?_
      rw [build_congr _ g i true f1 f2 f3]
      exact hmem2

end ShortNameGenerator

/-- C4: for every name accepted by validation and every finite sequence of
11-byte short names fed to `add_existing`, a successful `generate()` returns
a short name different from every one fed in; and `generate()` fails with
AlreadyExists only when all four long-prefix candidates (digits 1..4) and all
nine checksum-form candidates (digits 1..9) are marked as colliding in the
bitmaps. -/
theorem claim_C4_generate_collision_free (name : List Nat)
    (existing : List (List Nat))
    (_hv : validate_long_name name = .ok ())
    (_hex : ∀ s ∈ existing, s.length = 11) :
    (∀ s, (existing.foldl ShortNameGenerator.add_existing
        (ShortNameGenerator.new name)).generate = .ok s → s ∉ existing) ∧
    (∀ err, (existing.foldl ShortNameGenerator.add_existing
        (ShortNameGenerator.new name)).generate = .error err →
      (∀ i, 1 ≤ i → i ≤ 4 → (existing.foldl ShortNameGenerator.add_existing
        (ShortNameGenerator.new name)).long_prefix_bitmap &&& (1 <<< i) ≠ 0) ∧
      (∀ i, 1 ≤ i → i ≤ 9 → (existing.foldl ShortNameGenerator.add_existing
        (ShortNameGenerator.new name)).prefix_chksum_bitmap &&& (1 <<< i) ≠ 0)) := by
  set g0 := ShortNameGenerator.new name with hg0
  set gN := existing.foldl ShortNameGenerator.add_existing g0 with hgN
  obtain ⟨hf1, hf2, hf3⟩ := ShortNameGenerator.foldl_fields existing g0
  rw [← hgN] at hf1 hf2 hf3
  have hsn0 : g0.short_name.length = 11 := ShortNameGenerator.new_short_name_length name
  have hck0 : g0.chksum < 65536 := ShortNameGenerator.new_chksum_lt name
  constructor
  · intro s hgen hmem
    unfold ShortNameGenerator.generate at hgen
    split_ifs at hgen with hcond
    · have hs : s = gN.short_name := (Except.ok.inj hgen).symm
      have : gN.exact_match = true := by
        rw [hgN]
        exact ShortNameGenerator.foldl_exact_of_mem existing s g0 hmem
          (by rw [hs, hf1])
      exact hcond.2.2 this
    · rcases h4 : (List.range' 1 4).find?
          (fun i => gN.long_prefix_bitmap &&& (1 <<< i) == 0) with - | i
      · rw [h4] at hgen
        rcases h9 : (List.range' 1 9).find?
            (fun i => gN.prefix_chksum_bitmap &&& (1 <<< i) == 0) with - | i
        · rw [h9] at hgen; cases hgen
        · rw [h9] at hgen
          have hs : s = gN.build_prefixed_name i true := (Except.ok.inj hgen).symm
          have hrange : 1 ≤ i ∧ i < 1 + 9 :=
            List.mem_range'_1.mp (List.mem_of_find?_eq_some h9)
          have hbit : gN.prefix_chksum_bitmap &&& (1 <<< i) = 0 := by
            have := List.find?_some h9
            simpa using this
          have hmem2 : g0.build_prefixed_name i true ∈ existing := by
            rw [ShortNameGenerator.build_congr g0 gN i true hf1.symm hf2.symm hf3.symm]
            rw [← hs]
            exact hmem
          have := ShortNameGenerator.foldl_chksum_of_mem existing i (by omega) g0
            hsn0 hck0 hmem2
          rw [← hgN] at this
          exact this hbit
      · rw [h4] at hgen
        have hs : s = gN.build_prefixed_name i false := (Except.ok.inj hgen).symm
        have hrange : 1 ≤ i ∧ i < 1 + 4 :=
          List.mem_range'_1.mp (List.mem_of_find?_eq_some h4)
        have hbit : gN.long_prefix_bitmap &&& (1 <<< i) = 0 := by
          have := List.find?_some h4
          simpa using this
        have hmem2 : g0.build_prefixed_name i false ∈ existing := by
          rw [ShortNameGenerator.build_congr g0 gN i false hf1.symm hf2.symm hf3.symm]
          rw [← hs]
          exact hmem
        have := ShortNameGenerator.foldl_long_of_mem existing i (by omega) g0
          hsn0 hmem2
        rw [← hgN] at this
        exact this hbit
  · intro err hgen
    unfold ShortNameGenerator.generate at hgen
    split_ifs at hgen with hcond
    rcases h4 : (List.range' 1 4).find?
        (fun i => gN.long_prefix_bitmap &&& (1 <<< i) == 0) with - | i
    · rw [h4] at hgen
      rcases h9 : (List.range' 1 9).find?
          (fun i => gN.prefix_chksum_bitmap &&& (1 <<< i) == 0) with - | i
      · constructor
        · intro i hi1 hi4
          have := List.find?_eq_none.mp h4 i (List.mem_range'_1.mpr ⟨hi1, by omega⟩)
          simpa using this
        · intro i hi1 hi9
          have := List.find?_eq_none.mp h9 i (List.mem_range'_1.mpr ⟨hi1, by omega⟩)
          simpa using this
      · rw [h9] at hgen; cases hgen
    · rw [h4] at hgen; cases hgen

def exName : List Nat := [0x78, 0x2E, 0x74, 0x78, 0x74]
def exExisting : List (List Nat) :=
  [[0x58, 0x20, 0x20, 0x20, 0x20, 0x20, 0x20, 0x20, 0x54, 0x58, 0x54]]

/-- Witness for C4 at the spec scenario "x.txt" with the existing short name
`X       TXT`. -/
theorem claim_C4_witness :
    validate_long_name exName = .ok () ∧
    (∀ s ∈ exExisting, s.length = 11) ∧
    ((∀ s, (exExisting.foldl ShortNameGenerator.add_existing
        (ShortNameGenerator.new exName)).generate = .ok s → s ∉ exExisting) ∧
     (∀ err, (exExisting.foldl ShortNameGenerator.add_existing
        (ShortNameGenerator.new exName)).generate = .error err →
       (∀ i, 1 ≤ i → i ≤ 4 → (exExisting.foldl ShortNameGenerator.add_existing
         (ShortNameGenerator.new exName)).long_prefix_bitmap &&& (1 <<< i) ≠ 0) ∧
       (∀ i, 1 ≤ i → i ≤ 9 → (exExisting.foldl ShortNameGenerator.add_existing
         (ShortNameGenerator.new exName)).prefix_chksum_bitmap &&& (1 <<< i) ≠ 0))) :=
  ⟨rfl, by decide, claim_C4_generate_collision_free exName exExisting rfl (by decide)⟩

/-! ## Claim C7: remove frees exactly the entry's slots and the entry is gone -/

/-- Well-formed raw slots: the on-disk name fields have their fixed sizes
(11 name bytes for an SFN slot, 13 UTF-16 units for an LFN slot). -/
def wfSlot (s : DirEntryData) : Prop :=
  match s with
  | .file d => d.name.length = 11
  | .lfn d => d.nameParts.length = 13

instance (s : DirEntryData) : Decidable (wfSlot s) := by
  cases s <;> (unfold wfSlot; infer_instance)

theorem setFree_spec (s : DirEntryData) (hwf : wfSlot s) :
    s.setFree.b0 = 0xE5 ∧ s.setFree.restBytes = s.restBytes := by
  cases s with
  | file d =>
    have hlen : d.name.length = 11 := by simpa [wfSlot] using hwf
    cases hn : d.name with
    | nil => rw [hn] at hlen; cases hlen
    | cons b bs =>
      constructor
      · simp [DirEntryData.setFree, DirEntryData.b0, hn]
      · simp [DirEntryData.setFree, DirEntryData.restBytes, hn]
  | lfn d => exact ⟨rfl, rfl⟩

theorem setFree_file_free (s : DirEntryData) (hwf : wfSlot s) (d : DirFileEntryData)
    (h : s.setFree = .file d) : d.isFreeF = true := by
  cases s with
  | file d0 =>
    have hlen : d0.name.length = 11 := by simpa [wfSlot] using hwf
    simp only [DirEntryData.setFree, DirEntryData.file.injEq] at h
    subst h
    cases hn : d0.name with
    | nil => rw [hn] at hlen; cases hlen
    | cons b bs => simp [DirFileEntryData.isFreeF, hn]
  | lfn d0 => simp [DirEntryData.setFree] at h

theorem freeRangeGo_ok : ∀ (n : Nat) (slots : List DirEntryData) (i : Nat)
    (out : List DirEntryData),
    freeRangeGo slots i n = (.ok (), out) →
    (∀ k, k < n → i + k < slots.length) ∧
    (∀ k, k < n → out[i + k]? = (slots[i + k]?).map DirEntryData.setFree) ∧
    (∀ j, j < i ∨ i + n ≤ j → out[j]? = slots[j]?) ∧
    out.length = slots.length := by
  intro n
  induction n with
  | zero =>
    intro slots i out h
    injection h with h1 h2
    subst h2
    exact ⟨fun k hk => absurd hk (by omega), fun k hk => absurd hk (by omega),
      fun j _ => rfl, rfl⟩
  | succ n ih =>
    intro slots i out h
    unfold freeRangeGo at h
    split_ifs at h with hlt
    · obtain ⟨hb, h1, h2, hlen⟩ := ih _ _ _ h
      have hlset : (slots.set i (slots.get ⟨i, hlt⟩).setFree).length = slots.length := by
        simp
      refine ⟨?_, ?_, ?_, by rw [hlen, hlset]⟩
      · intro k hk
        rcases Nat.eq_zero_or_pos k with rfl | hkpos
        · omega
        · have := hb (k - 1) (by omega)
          rw [hlset] at this
          omega
      · intro k hk
        rcases Nat.eq_zero_or_pos k with rfl | hkpos
        · rw [Nat.add_zero]
          rw [h2 i (Or.inl (by omega))]
          rw [List.getElem?_set_self hlt]
          rw [List.getElem?_eq_getElem hlt]
          simp [List.get_eq_getElem]
        · have := h1 (k - 1) (by omega)
          rw [show i + 1 + (k - 1) = i + k by omega] at this
          rw [this, List.getElem?_set_ne (by omega)]
      · intro j hj
        rw [h2 j (by omega), List.getElem?_set_ne (by omega)]
    · cases h

theorem collectGo_sfn_used :
    ∀ (rest : List DirEntryData) (off : Nat) (b : LongNameBuilder) (beg : Nat),
      ∀ e ∈ (collectGo rest off b beg).1,
        ∃ k, k < rest.length ∧ e.offsetRange.2 = off + DIR_ENTRY_SIZE * (k + 1) ∧
          ∃ d : DirFileEntryData, rest[k]? = some (.file d) ∧
            d.isEndF = false ∧ d.isFreeF = false ∧ d.isVolume = false := by
  intro rest
  induction rest with
  | nil =>
    intro off b beg e he
    simp [collectGo] at he
  | cons s rest2 ih =>
    intro off b beg e he
    cases s with
    | file d =>
      by_cases hend : d.isEndF = true
      · simp only [collectGo, hend, if_true] at he
        cases he
      · by_cases hfv : (d.isFreeF || d.isVolume) = true
        · simp only [collectGo, hend, Bool.false_eq_true, if_false, hfv, if_true] at he
          obtain ⟨k, hk, hoff, hd⟩ := ih _ _ _ e he
          exact ⟨k + 1, by simpa using Nat.succ_lt_succ hk,
            by rw [hoff]; unfold DIR_ENTRY_SIZE; ring, by simpa using hd⟩
        · simp only [collectGo, hend, Bool.false_eq_true, if_false, hfv] at he
          rcases List.mem_cons.mp he with rfl | he2
          · refine ⟨0, by simp, by unfold DIR_ENTRY_SIZE; ring, d, by simp, ?_, ?_, ?_⟩
            · simpa using hend
            · rcases Bool.or_eq_false_iff.mp (by simpa using hfv) with ⟨hf, -⟩
              exact hf
            · rcases Bool.or_eq_false_iff.mp (by simpa using hfv) with ⟨-, hv⟩
              exact hv
          · obtain ⟨k, hk, hoff, hd⟩ := ih _ _ _ e he2
            exact ⟨k + 1, by simpa using Nat.succ_lt_succ hk,
              by rw [hoff]; unfold DIR_ENTRY_SIZE; ring, by simpa using hd⟩
    | lfn d =>
      by_cases hfree : d.isFreeLfn = true
      · simp only [collectGo, hfree, if_true] at he
        obtain ⟨k, hk, hoff, hd⟩ := ih _ _ _ e he
        exact ⟨k + 1, by simpa using Nat.succ_lt_succ hk,
          by rw [hoff]; unfold DIR_ENTRY_SIZE; ring, by simpa using hd⟩
      · simp only [collectGo, hfree, Bool.false_eq_true, if_false] at he
        obtain ⟨k, hk, hoff, hd⟩ := ih _ _ _ e he
        exact ⟨k + 1, by simpa using Nat.succ_lt_succ hk,
          by rw [hoff]; unfold DIR_ENTRY_SIZE; ring, by simpa using hd⟩

theorem remove_ok_freeRange (dirOf : Nat → List DirEntryData)
    (slots slots2 : List DirEntryData) (name : List Nat) (e : DirEntry)
    (freed : List Nat)
    (hfind : (find_entry slots name none none).1 = .ok e)
    (hrm : Dir.remove dirOf slots name = (.ok (), slots2, freed)) :
    freeRangeGo slots (e.offsetRange.1 / DIR_ENTRY_SIZE)
      ((e.offsetRange.2 - e.offsetRange.1) / DIR_ENTRY_SIZE) = (.ok (), slots2) := by
  unfold Dir.remove at hrm
  rw [hfind] at hrm
  simp only [] at hrm
  rcases hfr : freeRangeGo slots (e.offsetRange.1 / DIR_ENTRY_SIZE)
      ((e.offsetRange.2 - e.offsetRange.1) / DIR_ENTRY_SIZE) with ⟨a, b⟩
  cases hdir : e.isDir with
  | false =>
    rw [hdir] at hrm
    simp only [Bool.false_eq_true, if_false, Bool.false_and, hfr, Prod.mk.injEq] at hrm
    rw [hrm.1, hrm.2.1]
  | true =>
    rw [hdir] at hrm
    simp only [if_true] at hrm
    rcases hemp : is_empty (dirOf e.data.firstCluster) with err | emp
    · rw [hemp] at hrm
      simp [Prod.mk.injEq] at hrm
    · rw [hemp] at hrm
      cases emp with
      | false =>
        simp only [Bool.not_false, Bool.and_true, if_true] at hrm
        simp [Prod.mk.injEq] at hrm
      | true =>
        simp only [Bool.not_true, Bool.and_false, Bool.false_eq_true, if_false, hfr,
          Prod.mk.injEq] at hrm
        rw [hrm.1, hrm.2.1]

/-- C7: after a successful `remove`, every raw slot of the removed entry's
`offset_range` carries byte 0 = 0xE5 with the other 31 bytes intact, every
slot outside the range is unchanged, and a subsequent `iter()` never yields
an entry whose SFN slot lies in the freed range. -/
theorem claim_C7_remove_frame (dirOf : Nat → List DirEntryData)
    (slots slots2 : List DirEntryData) (name : List Nat) (e : DirEntry)
    (freed : List Nat)
    (hwf : ∀ s ∈ slots, wfSlot s)
    (hfind : (find_entry slots name none none).1 = .ok e)
    (hrm : Dir.remove dirOf slots name = (.ok (), slots2, freed)) :
    (∀ k, k < (e.offsetRange.2 - e.offsetRange.1) / DIR_ENTRY_SIZE →
      ∃ s, slots[e.offsetRange.1 / DIR_ENTRY_SIZE + k]? = some s ∧
        slots2[e.offsetRange.1 / DIR_ENTRY_SIZE + k]? = some s.setFree ∧
        s.setFree.b0 = 0xE5 ∧ s.setFree.restBytes = s.restBytes) ∧
    (∀ j, j < e.offsetRange.1 / DIR_ENTRY_SIZE ∨
        e.offsetRange.1 / DIR_ENTRY_SIZE +
          (e.offsetRange.2 - e.offsetRange.1) / DIR_ENTRY_SIZE ≤ j →
      slots2[j]? = slots[j]?) ∧
    (∀ e2 ∈ (collectEntries slots2).1,
      ¬(e.offsetRange.1 / DIR_ENTRY_SIZE ≤ e2.offsetRange.2 / DIR_ENTRY_SIZE - 1 ∧
        e2.offsetRange.2 / DIR_ENTRY_SIZE - 1 <
          e.offsetRange.1 / DIR_ENTRY_SIZE +
            (e.offsetRange.2 - e.offsetRange.1) / DIR_ENTRY_SIZE)) := by
  have hfr := remove_ok_freeRange dirOf slots slots2 name e freed hfind hrm
  obtain ⟨hb, h1, h2, hlen⟩ := freeRangeGo_ok _ _ _ _ hfr
  refine ⟨?_, fun j hj => h2 j hj, ?_⟩
  · intro k hk
    have hlt := hb k hk
    refine ⟨slots[e.offsetRange.1 / DIR_ENTRY_SIZE + k], List.getElem?_eq_getElem hlt, ?_,
      (setFree_spec _ (hwf _ (List.getElem_mem hlt))).1,
      (setFree_spec _ (hwf _ (List.getElem_mem hlt))).2⟩
    rw [h1 k hk, List.getElem?_eq_getElem hlt]
    rfl
  · intro e2 he2 hc
    obtain ⟨k, hk, hoff, d, hslot, hend, hfreeF, hvol⟩ :=
      collectGo_sfn_used slots2 0 LongNameBuilder.new 0 e2 he2
    have hkidx : e2.offsetRange.2 / DIR_ENTRY_SIZE - 1 = k := by
      rw [hoff]
      unfold DIR_ENTRY_SIZE
      rw [Nat.zero_add, Nat.mul_div_cancel_left _ (by norm_num)]
      omega
    rw [hkidx] at hc
    have hmap := h1 (k - e.offsetRange.1 / DIR_ENTRY_SIZE) (by omega)
    rw [show e.offsetRange.1 / DIR_ENTRY_SIZE +
        (k - e.offsetRange.1 / DIR_ENTRY_SIZE) = k by omega] at hmap
    rw [hslot] at hmap
    rcases Option.map_eq_some'.mp hmap.symm with ⟨s0, hs0, hsf⟩
    have hs0mem : s0 ∈ slots := by
      rcases List.getElem?_eq_some.mp hs0 with ⟨hlt0, hget⟩
      exact hget ▸ List.getElem_mem hlt0
    have := setFree_file_free s0 (hwf s0 hs0mem) d hsf
    rw [this] at hfreeF
    cases hfreeF

def exDirAB : List DirEntryData := [exSlotA, exSlotB, exEnd]

def exEntryA : DirEntry :=
  { data := { name := 0x41 :: List.replicate 10 0x20, attrs := 0,
              firstCluster := 0, size := 0 },
    lfn := [], offsetRange := (0, 32) }

/-- Witness for C7: removing `A` from a two-entry directory frees exactly its
slot, leaves the rest unchanged and iteration no longer yields it. -/
theorem claim_C7_witness :
    (∀ s ∈ exDirAB, wfSlot s) ∧
    (find_entry exDirAB [0x41] none none).1 = .ok exEntryA ∧
    Dir.remove (fun _ => []) exDirAB [0x41] =
      (.ok (), [exSlotA.setFree, exSlotB, exEnd], []) ∧
    ((∀ k, k < (exEntryA.offsetRange.2 - exEntryA.offsetRange.1) / DIR_ENTRY_SIZE →
      ∃ s, exDirAB[exEntryA.offsetRange.1 / DIR_ENTRY_SIZE + k]? = some s ∧
        [exSlotA.setFree, exSlotB, exEnd][exEntryA.offsetRange.1 / DIR_ENTRY_SIZE + k]? =
          some s.setFree ∧
        s.setFree.b0 = 0xE5 ∧ s.setFree.restBytes = s.restBytes) ∧
    (∀ j, j < exEntryA.offsetRange.1 / DIR_ENTRY_SIZE ∨
        exEntryA.offsetRange.1 / DIR_ENTRY_SIZE +
          (exEntryA.offsetRange.2 - exEntryA.offsetRange.1) / DIR_ENTRY_SIZE ≤ j →
      [exSlotA.setFree, exSlotB, exEnd][j]? = exDirAB[j]?) ∧
    (∀ e2 ∈ (collectEntries [exSlotA.setFree, exSlotB, exEnd]).1,
      ¬(exEntryA.offsetRange.1 / DIR_ENTRY_SIZE ≤
          e2.offsetRange.2 / DIR_ENTRY_SIZE - 1 ∧
        e2.offsetRange.2 / DIR_ENTRY_SIZE - 1 <
          exEntryA.offsetRange.1 / DIR_ENTRY_SIZE +
            (exEntryA.offsetRange.2 - exEntryA.offsetRange.1) / DIR_ENTRY_SIZE))) :=
  ⟨by decide, rfl, rfl,
   claim_C7_remove_frame (fun _ => []) exDirAB [exSlotA.setFree, exSlotB, exEnd]
     [0x41] exEntryA [] (by decide) rfl rfl⟩

/-! ## Claim C1: LFN encode/decode round trip -/

theorem lfnPart_length (c : List Nat) (hc : c.length ≤ 13) :
    (lfnPart c).length = 13 := by
  unfold lfnPart LFN_PART_LEN
  rw [List.length_set, List.length_append, List.length_replicate]
  omega

theorem lfnPart_full (c : List Nat) (hc : c.length = 13) : lfnPart c = c := by
  unfold lfnPart LFN_PART_LEN
  rw [hc, Nat.sub_self, List.replicate_zero, List.append_nil]
  exact List.set_eq_of_length_le (by omega)

theorem lfnPart_short (c : List Nat) (hc : c.length < 13) :
    lfnPart c = c ++ 0 :: List.replicate (13 - c.length - 1) 0xFFFF := by
  unfold lfnPart LFN_PART_LEN
  rw [show 13 - c.length = (13 - c.length - 1) + 1 by omega, List.replicate_succ]
  rw [List.set_append_right _ _ (by omega), Nat.sub_self, List.set_cons_zero]
  rw [show 13 - c.length - 1 + 1 - 1 = 13 - c.length - 1 by omega]

theorem chunks13_eq_nil_iff (l : List Nat) : chunks13 l = [] ↔ l = [] := by
  rw [chunks13_eq]
  split_ifs with h
  · simp [h]
  · simp [h]

theorem chunks13_join_aux : ∀ (n : Nat) (l : List Nat), l.length ≤ n →
    (chunks13 l).flatten = l := by
  intro n
  induction n with
  | zero =>
    intro l hl
    have : l = [] := List.length_eq_zero.mp (by omega)
    subst this
    rfl
  | succ n ih =>
    intro l hl
    rw [chunks13_eq]
    split_ifs with h
    · subst h; rfl
    · rw [List.flatten_cons, ih (l.drop 13) (by
        rw [List.length_drop]
        have : 0 < l.length := List.length_pos.mpr h
        omega)]
      exact List.take_append_drop 13 l

theorem chunks13_flatten (l : List Nat) : (chunks13 l).flatten = l :=
  chunks13_join_aux l.length l (le_refl _)

theorem chunks13_mem_le : ∀ (n : Nat) (l : List Nat), l.length ≤ n →
    ∀ c ∈ chunks13 l, c.length ≤ 13 ∧ c ≠ [] := by
  intro n
  induction n with
  | zero =>
    intro l hl c hc
    have : l = [] := List.length_eq_zero.mp (by omega)
    subst this
    cases hc
  | succ n ih =>
    intro l hl c hc
    rw [chunks13_eq] at hc
    split_ifs at hc with h
    · cases hc
    · rcases List.mem_cons.mp hc with rfl | hc2
      · constructor
        · rw [List.length_take]; omega
        · intro he
          have hlen := congrArg List.length he
          rw [List.length_take, List.length_nil] at hlen
          have hpos : 0 < l.length := List.length_pos.mpr h
          omega
      · exact ih (l.drop 13) (by
          rw [List.length_drop]
          have : 0 < l.length := List.length_pos.mpr h
          omega) c hc2

theorem chunks13_dropLast_full : ∀ (n : Nat) (l : List Nat), l.length ≤ n →
    ∀ c ∈ (chunks13 l).dropLast, c.length = 13 := by
  intro n
  induction n with
  | zero =>
    intro l hl c hc
    have : l = [] := List.length_eq_zero.mp (by omega)
    subst this
    cases hc
  | succ n ih =>
    intro l hl c hc
    rw [chunks13_eq] at hc
    split_ifs at hc with h
    · cases hc
    · by_cases hrest : chunks13 (l.drop 13) = []
      · rw [hrest] at hc
        cases hc
      · rw [List.dropLast_cons_of_ne_nil hrest] at hc
        rcases List.mem_cons.mp hc with rfl | hc2
        · have hd : l.drop 13 ≠ [] := (chunks13_eq_nil_iff _).not.mp hrest
          have : 13 < l.length := by
            by_contra hb
            exact hd (List.drop_eq_nil_of_le (by omega))
          rw [List.length_take]
          omega
        · exact ih (l.drop 13) (by
            rw [List.length_drop]
            have : 0 < l.length := List.length_pos.mpr h
            omega) c hc2

theorem chunks13_count_le : ∀ (n : Nat) (l : List Nat), l.length ≤ 13 * n →
    (chunks13 l).length ≤ n := by
  intro n
  induction n with
  | zero =>
    intro l hl
    have : l = [] := List.length_eq_zero.mp (by omega)
    subst this
    simp [chunks13, chunksGo]
  | succ n ih =>
    intro l hl
    rw [chunks13_eq]
    split_ifs with h
    · simp
    · rw [List.length_cons]
      have := ih (l.drop 13) (by rw [List.length_drop]; omega)
      omega

theorem and31_of_lt (m : Nat) (h : m < 32) : m &&& 0x1F = m := by
  rw [show (0x1F : Nat) = 2 ^ 5 - 1 by norm_num, Nat.and_pow_two_sub_one_eq_mod,
    Nat.mod_eq_of_lt h]

theorem and64_of_lt (m : Nat) (h : m < 64) : m &&& 0x40 = 0 := by
  rw [show (0x40 : Nat) = 2 ^ 6 by norm_num, Nat.and_two_pow,
    Nat.testBit_eq_false_of_lt h]
  rfl

theorem or64_and31 (m : Nat) (h : m < 32) : (m ||| 0x40) &&& 0x1F = m := by
  rw [Nat.and_distrib_right, and31_of_lt m h,
    show (0x40 : Nat) &&& 0x1F = 0 by decide, Nat.or_zero]

theorem or64_and64_ne (m : Nat) : (m ||| 0x40) &&& 0x40 ≠ 0 := by
  rw [Nat.and_distrib_right, show (0x40 : Nat) &&& 0x40 = 0x40 by decide]
  intro hc
  have ht := congrArg (fun x => x.testBit 6) hc
  simp only [Nat.testBit_or] at ht
  rw [show ((0x40 : Nat).testBit 6) = true by decide] at ht
  simp at ht

/-- Folding the non-last LFN slots (orders `ds.length`, …, 1, one full
13-unit chunk each) into a builder that expects them copies each chunk into
its place in the buffer. -/
theorem lfn_process_run (c : Nat) : ∀ (ds : List (List Nat)) (B : List Nat),
    (∀ d ∈ ds, d.length = 13) → ds.length < 32 → 13 * ds.length ≤ B.length →
    (lfnSlotsRev c false ds).foldl LongNameBuilder.process
        { buf := B, chksum := c, index := ds.length + 1 } =
      { buf := ds.reverse.flatten ++ B.drop (13 * ds.length), chksum := c, index := 1 } := by
  intro ds
  induction ds with
  | nil =>
    intro B _ _ _
    simp [lfnSlotsRev]
  | cons d ds2 ih =>
    intro B hfull hlen32 hBlen
    have hd13 : d.length = 13 := hfull d (List.mem_cons_self d ds2)
    simp only [lfnSlotsRev, List.foldl_cons, List.length_cons]
    have hstep : LongNameBuilder.process
        { buf := B, chksum := c, index := ds2.length + 1 + 1 }
        { order := ds2.length + 1 ||| (if false = true then LFN_ENTRY_LAST_FLAG else 0),
          checksum := c, nameParts := lfnPart d } =
        { buf := setSlice B (13 * ds2.length) d, chksum := c, index := ds2.length + 1 } := by
      simp only [LongNameBuilder.process, if_false, Bool.false_eq_true, Nat.or_zero]
      rw [show LFN_ENTRY_LAST_FLAG = 0x40 from rfl]
      rw [and31_of_lt (ds2.length + 1) (by simp at hlen32; omega)]
      rw [if_neg (by omega)]
      rw [and64_of_lt (ds2.length + 1) (by simp at hlen32; omega)]
      rw [if_neg (by omega)]
      rw [if_neg (by push_neg; exact ⟨by omega, by omega, rfl⟩)]
      rw [lfnPart_full d hd13]
      rw [show LFN_PART_LEN = 13 from rfl]
      rw [show ds2.length + 1 + 1 - 1 = ds2.length + 1 by omega]
      rw [show 13 * (ds2.length + 1 - 1) = 13 * ds2.length by omega]
    rw [hstep]
    rw [ih (setSlice B (13 * ds2.length) d)
      (fun x hx => hfull x (List.mem_cons_of_mem d hx))
      (by simp at hlen32; omega)
      (by rw [setSlice_length _ _ _ (by rw [hd13]; simp at hBlen; omega)]
          simp at hBlen; omega)]
    have hdrop : (setSlice B (13 * ds2.length) d).drop (13 * ds2.length) =
        d ++ B.drop (13 * (ds2.length + 1)) := by
      unfold setSlice
      rw [List.append_assoc]
      rw [List.drop_left' (by rw [List.length_take]; simp at hBlen; omega)]
      rw [hd13, show 13 * ds2.length + 13 = 13 * (ds2.length + 1) by ring]
    rw [hdrop]
    congr 1
    rw [List.reverse_cons, List.flatten_append]
    simp [List.append_assoc]

theorem lfnSlotsRev_cons_true (c : Nat) (p : List Nat) (ps : List (List Nat)) :
    lfnSlotsRev c true (p :: ps) =
      { order := ps.length + 1 ||| LFN_ENTRY_LAST_FLAG, checksum := c,
        nameParts := lfnPart p } :: lfnSlotsRev c false ps := rfl

theorem setSlice_replicate_mid (n k : Nat) (s : List Nat) (h : k + s.length = n) :
    setSlice (List.replicate n 0) k s = List.replicate k 0 ++ s := by
  unfold setSlice
  rw [List.take_replicate, List.drop_replicate, min_eq_left (by omega)]
  rw [show n - (k + s.length) = 0 by omega, List.replicate_zero, List.append_nil]

theorem utf8Len_pos (c : Nat) : 1 ≤ utf8Len c := by
  unfold utf8Len; split_ifs <;> omega

theorem length_le_utf8StrLen : ∀ (l : List Nat), l.length ≤ utf8StrLen l := by
  intro l
  induction l with
  | nil => simp [utf8StrLen]
  | cons c cs ih =>
    simp only [utf8StrLen, List.map_cons, List.sum_cons, List.length_cons]
    have := utf8Len_pos c
    simp only [utf8StrLen] at ih
    omega

theorem allowedLongChar_bounds (c : Nat) (h : allowedLongChar c) :
    0x20 ≤ c ∧ c ≤ 0xFFFF := by
  unfold allowedLongChar at h
  omega

/-- Scalar values below 0x10000 encode to a single UTF-16 unit each. -/
theorem encodeUtf16_bmp : ∀ (l : List Nat), (∀ c ∈ l, c < 0x10000) →
    encodeUtf16 l = l := by
  intro l
  induction l with
  | nil => intro h; rfl
  | cons c cs ih =>
    intro h
    simp only [encodeUtf16, List.flatMap_cons]
    rw [show encodeUtf16Char c = [c] by
      unfold encodeUtf16Char
      rw [if_pos (h c (List.mem_cons_self c cs))]]
    simp only [encodeUtf16] at ih
    rw [ih (fun x hx => h x (List.mem_cons_of_mem c hx)), List.singleton_append]

/-- `LongNameBuilder.truncate` removes exactly the 0x0000/0xFFFF padding when
the name's own last unit is neither 0x0000 nor 0xFFFF. -/
theorem truncate_strips (u pad : List Nat) (hu : u ≠ [])
    (h0 : u.getLast hu ≠ 0) (hF : u.getLast hu ≠ 0xFFFF)
    (hpad : ∀ x ∈ pad, x = 0 ∨ x = 0xFFFF) :
    ((u ++ pad).reverse.dropWhile (fun x => x == 0xFFFF || x == 0)).reverse = u := by
  rw [List.reverse_append, List.dropWhile_append]
  rw [show pad.reverse.dropWhile (fun x => x == 0xFFFF || x == 0) = [] by
    rw [List.dropWhile_eq_nil_iff]
    intro x hx
    rcases hpad x (List.mem_reverse.mp hx) with rfl | rfl <;> simp]
  rw [if_pos List.isEmpty_nil]
  rw [show u.reverse.dropWhile (fun x => x == 0xFFFF || x == 0) = u.reverse by
    conv_lhs => rw [show u = u.dropLast ++ [u.getLast hu] from
      (List.dropLast_append_getLast hu).symm]
    rw [List.reverse_append, List.reverse_singleton, List.singleton_append]
    rw [List.dropWhile_cons_of_neg (by simp [h0, hF])]
    conv_rhs => rw [show u = u.dropLast ++ [u.getLast hu] from
      (List.dropLast_append_getLast hu).symm]
    rw [List.reverse_append, List.reverse_singleton, List.singleton_append]]
  exact List.reverse_reverse u

/-- `validate_chksum` is the identity when the stored checksum matches. -/
theorem validate_chksum_self (buf sfn : List Nat) (i : Nat) :
    LongNameBuilder.validate_chksum
        { buf := buf, chksum := lfn_checksum sfn, index := i } sfn =
      { buf := buf, chksum := lfn_checksum sfn, index := i } := by
  simp [LongNameBuilder.validate_chksum]

/-- `to_vec` on a finished builder (index 1) strips trailing padding. -/
theorem to_vec_one (buf : List Nat) (c : Nat) :
    LongNameBuilder.to_vec { buf := buf, chksum := c, index := 1 } =
      (buf.reverse.dropWhile (fun x => x == 0xFFFF || x == 0)).reverse := by
  simp [LongNameBuilder.to_vec, LongNameBuilder.truncateTrailing]

/-- C1 counterexample: the one-character name U+FFFF passes
`validate_long_name` (0x80 ≤ 0xFFFF ≤ 0xFFFF is allowed), but the decoder
strips trailing 0xFFFF units in `truncate`, so the round trip through
`LfnEntriesGenerator` and `LongNameBuilder` returns the empty name instead
of the original UTF-16 units. -/
theorem claim_C1_counterexample :
    validate_long_name [0xFFFF] = .ok () ∧
    lfnRoundTrip (encodeUtf16 [0xFFFF]) (List.replicate 11 0x41) ≠
      encodeUtf16 [0xFFFF] :=
  ⟨rfl, by decide⟩

/-- C1 (amended): for every name accepted by `validate_long_name` whose last
code unit is not 0xFFFF, feeding the slots emitted by `LfnEntriesGenerator`
over the name's UTF-16 units (with checksum `lfn_checksum sfn`), in emission
order, into a fresh `LongNameBuilder`, then calling `validate_chksum sfn`
and `to_vec`, returns exactly the name's UTF-16 code units. -/
theorem claim_C1_lfn_roundtrip (name sfn : List Nat)
    (hv : validate_long_name name = .ok ())
    (hlast : name.getLast? ≠ some 0xFFFF) :
    lfnRoundTrip (encodeUtf16 name) sfn = encodeUtf16 name := by
  have hfacts : name ≠ [] ∧ name.length ≤ 255 ∧ ∀ c ∈ name, allowedLongChar c := by
    unfold validate_long_name at hv
    split_ifs at hv with h1 h2 h3
    refine ⟨fun he => h1 (by rw [he]; rfl), ?_, fun c hc => ?_⟩
    · have := length_le_utf8StrLen name
      omega
    · exact of_decide_eq_true (List.all_eq_true.mp h3 c hc)
  obtain ⟨hne, h255, hall⟩ := hfacts
  have henc : encodeUtf16 name = name :=
    encodeUtf16_bmp name (fun c hc => by
      have := (allowedLongChar_bounds c (hall c hc)).2
      omega)
  rw [henc]
  have hcs_ne : chunks13 name ≠ [] := fun h => hne ((chunks13_eq_nil_iff name).mp h)
  obtain ⟨cs0, L, hcse⟩ : ∃ cs0 L, chunks13 name = cs0 ++ [L] :=
    ⟨(chunks13 name).dropLast, (chunks13 name).getLast hcs_ne,
      (List.dropLast_append_getLast hcs_ne).symm⟩
  have hLmem : L ∈ chunks13 name := by
    rw [hcse]
    exact List.mem_append_right cs0 (List.mem_cons_self L [])
  have hLle : L.length ≤ 13 := (chunks13_mem_le name.length name (le_refl _) L hLmem).1
  have hfull : ∀ d ∈ cs0, d.length = 13 := fun d hd =>
    chunks13_dropLast_full name.length name (le_refl _) d
      (by rw [hcse, List.dropLast_concat]; exact hd)
  have hcnt : cs0.length ≤ 19 := by
    have := chunks13_count_le 20 name (by omega)
    rw [hcse, List.length_append, List.length_cons, List.length_nil] at this
    omega
  have hname : cs0.flatten ++ L = name := by
    have h := chunks13_flatten name
    rw [hcse, List.flatten_append, List.flatten_cons, List.flatten_nil,
      List.append_nil] at h
    exact h
  have hlast0 : name.getLast hne ≠ 0 := by
    have := (allowedLongChar_bounds _ (hall _ (List.getLast_mem hne))).1
    omega
  have hlastF : name.getLast hne ≠ 0xFFFF := fun he =>
    hlast (by rw [List.getLast?_eq_getLast name hne, he])
  have hrl : cs0.reverse.length = cs0.length := List.length_reverse cs0
  have hstep0 : LongNameBuilder.process LongNameBuilder.new
      { order := cs0.reverse.length + 1 ||| LFN_ENTRY_LAST_FLAG,
        checksum := lfn_checksum sfn, nameParts := lfnPart L } =
      { buf := List.replicate (13 * cs0.reverse.length) 0 ++ lfnPart L,
        chksum := lfn_checksum sfn, index := cs0.reverse.length + 1 } := by
    simp only [LongNameBuilder.process, LongNameBuilder.new]
    rw [show LFN_ENTRY_LAST_FLAG = 0x40 from rfl]
    rw [or64_and31 (cs0.reverse.length + 1) (by omega)]
    rw [if_neg (by omega)]
    rw [if_pos (or64_and64_ne (cs0.reverse.length + 1))]
    rw [show LFN_PART_LEN = 13 from rfl]
    rw [show resizeZero [] ((cs0.reverse.length + 1) * 13) =
        List.replicate ((cs0.reverse.length + 1) * 13) 0 by simp [resizeZero]]
    rw [show cs0.reverse.length + 1 - 1 = cs0.reverse.length by omega]
    rw [setSlice_replicate_mid _ _ _ (by rw [lfnPart_length L hLle]; ring)]
  have hfold : (lfnEntries name (lfn_checksum sfn)).foldl LongNameBuilder.process
      LongNameBuilder.new =
      { buf := cs0.flatten ++ lfnPart L, chksum := lfn_checksum sfn, index := 1 } := by
    unfold lfnEntries
    rw [hcse, List.reverse_append, List.reverse_singleton, List.singleton_append]
    rw [lfnSlotsRev_cons_true, List.foldl_cons, hstep0]
    rw [lfn_process_run (lfn_checksum sfn) cs0.reverse
      (List.replicate (13 * cs0.reverse.length) 0 ++ lfnPart L)
      (fun d hd => hfull d (List.mem_reverse.mp hd))
      (by omega)
      (by rw [List.length_append, List.length_replicate, lfnPart_length L hLle]
          omega)]
    rw [List.reverse_reverse]
    have hdl : (List.replicate (13 * cs0.reverse.length) 0 ++ lfnPart L).drop
        (13 * cs0.reverse.length) = lfnPart L := List.drop_left' (by simp)
    rw [hdl]
  unfold lfnRoundTrip
  rw [hfold, validate_chksum_self, to_vec_one]
  rcases Nat.lt_or_ge L.length 13 with hlt | hge
  · rw [lfnPart_short L hlt, ← List.append_assoc, hname]
    exact truncate_strips name _ hne hlast0 hlastF (fun x hx => by
      rcases List.mem_cons.mp hx with rfl | hx2
      · exact Or.inl rfl
      · exact Or.inr (List.eq_of_mem_replicate hx2))
  · rw [lfnPart_full L (le_antisymm hLle hge), hname]
    have h := truncate_strips name [] hne hlast0 hlastF
      (fun x hx => absurd hx (List.not_mem_nil x))
    rwa [List.append_nil] at h

/-- Witness for C1 at the one-character name "A" with short name
"AAAAAAAAAAA": validation passes, the last unit is not 0xFFFF, and the
round trip returns the name. -/
theorem claim_C1_witness :
    validate_long_name [0x41] = .ok () ∧
    ([0x41] : List Nat).getLast? ≠ some 0xFFFF ∧
    lfnRoundTrip (encodeUtf16 [0x41]) (List.replicate 11 0x41) =
      encodeUtf16 [0x41] :=
  ⟨rfl, by decide, claim_C1_lfn_roundtrip [0x41] (List.replicate 11 0x41) rfl (by decide)⟩

end FatDir
